import Mathlib

/-!
# VideoCallWebRtc: the signaling relay (server/server.js) and the mesh client (client/src/Room.js)

The relay is a socket.io server and the client drives one `RTCPeerConnection` per remote
participant.  Both are embedded as state-passing functions:

* the relay's state is the set of connected sockets and socket.io's room membership; every
  handler of `server.js` returns the new state and the packets it emitted, as
  `(recipient, message)` pairs in emission order;
* the client's state is the `peerConnections` table, the `remoteStreams` list and the
  `RTCPeerConnection` objects built so far; every handler of `Room.js` runs to completion and
  returns the new state and the messages it emitted to the relay.  What the transport session
  answers to `createOffer`, `createAnswer`, `setLocalDescription`, `setRemoteDescription` and
  `addIceCandidate` is an explicit argument of the handler.

* what a mounted `Room` component makes its socket join is a third piece: the effect of
  Room.js (lines 17-35), its cleanup (lines 87-95) and the suspended `setupLocal` calls, which
  produce the connections, disconnects and `join-room` messages the relay sees.

Library behaviour the source relies on (socket.io rooms, the `RTCPeerConnection` interface) is
stated in the doc comment of the definition that embeds it.
-/

namespace VideoCallWebRtc

/-! ## Data shared by relay and client -/

/-- A socket id, `socket.id`: a string assigned by socket.io when the socket connects. -/
abbrev SocketId := String

/-- A socket.io room name.  Room names and socket ids are the same kind of string: the adapter
declares both as `string` and keeps every socket in the room named by its own id. -/
abbrev Room := String

/-- An opaque JSON payload (`sdp`, `candidate`), never inspected by relay or client.  Where the
source tests a payload for truthiness it is carried as `Option Payload`, `none` standing for a
falsy value (`null`, `undefined`). -/
abbrev Payload := String

/-- Messages a client emits to the relay: the four `socket.on` events of server.js lines 19-45.
The field `toId` is the `to` field of the packet. -/
inductive ClientMsg where
  | joinRoom (roomId : Room)
  | offer (toId : String) (sdp : Payload)
  | answer (toId : String) (sdp : Payload)
  | iceCandidate (toId : String) (candidate : Option Payload)
  deriving DecidableEq, Repr

/-- Messages the relay emits to a client: the six `socketRef.current.on` events of Room.js.
The field `sender` is the `from` field of the packet. -/
inductive ServerMsg where
  | allUsers (users : List SocketId)
  | userJoined (id : SocketId)
  | offer (sender : SocketId) (sdp : Payload)
  | answer (sender : SocketId) (sdp : Payload)
  | iceCandidate (sender : SocketId) (candidate : Option Payload)
  | userLeft (id : SocketId)
  deriving DecidableEq, Repr

/-- One packet put on the wire by the relay: the receiving socket and the message. -/
abbrev Delivery := SocketId × ServerMsg

/-! ## The relay (server/server.js) -/

/-- The relay's state.  `sockets` is `io.sockets.sockets`, the connected sockets.
`memberships` is the room relation of socket.io's in-memory adapter, in insertion order: the
adapter keeps it in two indexes that it always updates together, `rooms : Map<Room, Set<SocketId>>`
and `sids : Map<SocketId, Set<Room>>`; both are read off this one list. -/
structure Relay where
  sockets : List SocketId
  memberships : List (Room × SocketId)
  deriving DecidableEq, Repr

/-- The relay before any socket connected. -/
def Relay.init : Relay := ⟨[], []⟩

/-- The expression `Array.from(io.sockets.adapter.rooms.get(roomId) || [])`: the members of a
room in the order they were added, the empty list for a room that does not exist. -/
def roomsGet (s : Relay) (roomId : Room) : List SocketId :=
  (s.memberships.filter (fun p => p.1 = roomId)).map (fun p => p.2)

/-- The set `socket.rooms` (the adapter's `sids.get(socket.id)`): the rooms of a socket, in the
order it entered them.  The first is the room named by its own id. -/
def socketRooms (s : Relay) (id : SocketId) : List Room :=
  (s.memberships.filter (fun p => p.2 = id)).map (fun p => p.1)

/-- The call `socket.join(roomId)`: adds the socket to the room, creating the room when absent;
nothing changes when the socket is already a member. -/
def socketJoin (s : Relay) (id : SocketId) (roomId : Room) : Relay :=
  if (roomId, id) ∈ s.memberships then s
  else { s with memberships := s.memberships ++ [(roomId, id)] }

/-- The recipients of `io.to(room).emit(..)` (with `exceptRooms = []`) and of
`socket.to(room).emit(..)` (with `exceptRooms = [socket.id]`).  socket.io's adapter sends to
every member of the target room that is not a member of an excepted room and whose socket is
connected. -/
def broadcast (s : Relay) (room : Room) (exceptRooms : List Room) : List SocketId :=
  (roomsGet s room).filter
    (fun id => decide (∀ e ∈ exceptRooms, id ∉ roomsGet s e) && decide (id ∈ s.sockets))

/-- The `join-room` handler, server.js lines 19-30. -/
def Relay.onJoinRoom (s : Relay) (id : SocketId) (roomId : Room) : Relay × List Delivery :=
  let s1 := socketJoin s id roomId
  let clients := roomsGet s1 roomId
  let otherClients := clients.filter (fun c => c ≠ id)
  (s1, (id, ServerMsg.allUsers otherClients)
        :: (broadcast s1 roomId [id]).map (fun t => (t, ServerMsg.userJoined id)))

/-- The `offer` handler, server.js lines 33-35. -/
def Relay.onOffer (s : Relay) (id : SocketId) (toId : String) (sdp : Payload) :
    Relay × List Delivery :=
  (s, (broadcast s toId []).map (fun t => (t, ServerMsg.offer id sdp)))

/-- The `answer` handler, server.js lines 38-40. -/
def Relay.onAnswer (s : Relay) (id : SocketId) (toId : String) (sdp : Payload) :
    Relay × List Delivery :=
  (s, (broadcast s toId []).map (fun t => (t, ServerMsg.answer id sdp)))

/-- The `ice-candidate` handler, server.js lines 43-45. -/
def Relay.onIceCandidate (s : Relay) (id : SocketId) (toId : String)
    (candidate : Option Payload) :
    Relay × List Delivery :=
  (s, (broadcast s toId []).map (fun t => (t, ServerMsg.iceCandidate id candidate)))

/-- The `disconnecting` handler, server.js lines 47-53: the packets it emits.  The loop runs over
`socket.rooms` and skips the room named by the socket's own id. -/
def Relay.onDisconnecting (s : Relay) (id : SocketId) : List Delivery :=
  ((socketRooms s id).filter (fun roomId => roomId ≠ id)).flatMap
    (fun roomId => (broadcast s roomId [id]).map (fun t => (t, ServerMsg.userLeft id)))

/-- What socket.io does to a socket once its `disconnecting` handlers have run: the socket
leaves every room and is removed from the connected sockets. -/
def socketLeaveAll (s : Relay) (id : SocketId) : Relay :=
  { sockets := s.sockets.filter (fun x => x ≠ id)
    memberships := s.memberships.filter (fun p => p.2 ≠ id) }

/-- What happens at the relay: a socket connects, a connected socket sends a message, a socket
disconnects. -/
inductive RelayEvent where
  | connection (id : SocketId)
  | message (id : SocketId) (m : ClientMsg)
  | disconnect (id : SocketId)
  deriving DecidableEq, Repr

/-- One event handled to completion (server.js lines 15-58).  On `connection` socket.io puts the
socket in the room named by its own id.  Handlers exist only for connected sockets, so a
message or a disconnect of a socket that is not connected does nothing. -/
def Relay.step (s : Relay) : RelayEvent → Relay × List Delivery
  | .connection id =>
      if id ∈ s.sockets then (s, [])
      else (socketJoin { s with sockets := s.sockets ++ [id] } id id, [])
  | .message id m =>
      if id ∈ s.sockets then
        match m with
        | .joinRoom roomId => s.onJoinRoom id roomId
        | .offer toId sdp => s.onOffer id toId sdp
        | .answer toId sdp => s.onAnswer id toId sdp
        | .iceCandidate toId candidate => s.onIceCandidate id toId candidate
      else (s, [])
  | .disconnect id =>
      if id ∈ s.sockets then (socketLeaveAll s id, s.onDisconnecting id) else (s, [])

/-- The relay run over a sequence of events, one at a time: the final state and every packet
emitted, in order. -/
def Relay.run (s : Relay) : List RelayEvent → Relay × List Delivery
  | [] => (s, [])
  | e :: es =>
      let r := s.step e
      let r2 := Relay.run r.1 es
      (r2.1, r.2 ++ r2.2)

/-- The `all-users` lists among the emitted packets, each with the socket it was sent to. -/
def allUsersSent (log : List Delivery) : List (SocketId × List SocketId) :=
  log.filterMap (fun d => match d.2 with
    | .allUsers users => some (d.1, users)
    | _ => none)

/-- Socket `a` was sent the id `b` in an `all-users` list. -/
def gotInAllUsers (log : List Delivery) (a b : SocketId) : Prop :=
  ∃ users, (a, ServerMsg.allUsers users) ∈ log ∧ b ∈ users

/-- Socket `a` was sent a `user-joined` notice for `b`. -/
def gotUserJoined (log : List Delivery) (a b : SocketId) : Prop :=
  (a, ServerMsg.userJoined b) ∈ log

/-- The ids of the sockets that connect in a trace. -/
def connectionIds (tr : List RelayEvent) : List SocketId :=
  tr.filterMap (fun e => match e with
    | .connection id => some id
    | _ => none)

/-- The senders of the `join-room` messages of a trace. -/
def joinSenders (tr : List RelayEvent) : List SocketId :=
  tr.filterMap (fun e => match e with
    | .message id (.joinRoom _) => some id
    | _ => none)

/-- The room names of the `join-room` messages of a trace. -/
def joinedRooms (tr : List RelayEvent) : List Room :=
  tr.filterMap (fun e => match e with
    | .message _ (.joinRoom roomId) => some roomId
    | _ => none)

/-! ## The mesh client (client/src/Room.js) -/

/-- One `RTCPeerConnection` object, as far as Room.js uses it.  `remoteId` is the id captured by
the `ontrack` and `onicecandidate` closures installed on it; `tracks` is the local stream whose
tracks were added with `addTrack`; `candidates` are the remote candidates `addIceCandidate`
accepted; `closed` is set by `close()`. -/
structure PeerConnection where
  remoteId : SocketId
  tracks : Option String
  localDescription : Option Payload
  remoteDescription : Option Payload
  candidates : List Payload
  closed : Bool
  deriving DecidableEq, Repr

/-- The state of one mounted `Room` component.  `sessions` holds every `RTCPeerConnection`
constructed so far, in construction order; `peerConnections` is `peerConnections.current`, the
table from peer id to the object stored under it, an object being named by its index in
`sessions`; `remoteStreams` is the React state of that name, `(id, stream)` entries;
`localStream` is `localStreamRef.current`. -/
structure Client where
  localStream : Option String
  sessions : List PeerConnection
  peerConnections : List (SocketId × Nat)
  remoteStreams : List (SocketId × String)
  deriving DecidableEq, Repr

/-- The component right after mounting with local media acquired. -/
def Client.init (localStream : Option String) : Client := ⟨localStream, [], [], []⟩

/-- The read `peerConnections.current[id]`. -/
def tableGet : List (SocketId × Nat) → SocketId → Option Nat
  | [], _ => none
  | (k, v) :: t, id => if k = id then some v else tableGet t id

/-- The assignment `peerConnections.current[id] = pc`. -/
def tableSet : List (SocketId × Nat) → SocketId → Nat → List (SocketId × Nat)
  | [], id, v => [(id, v)]
  | (k, w) :: t, id, v => if k = id then (k, v) :: t else (k, w) :: tableSet t id v

/-- The statement `delete peerConnections.current[id]`. -/
def tableDelete (t : List (SocketId × Nat)) (id : SocketId) : List (SocketId × Nat) :=
  t.filter (fun e => e.1 ≠ id)

/-- A method call on the `RTCPeerConnection` with index `i`: the object is updated in place. -/
def updateSession (ss : List PeerConnection) (i : Nat) (f : PeerConnection → PeerConnection) :
    List PeerConnection :=
  match ss[i]? with
  | some pc => ss.set i (f pc)
  | none => ss

/-- The expression `new RTCPeerConnection(ICE_CONFIG)` followed by the `addTrack` loop and the two
handler assignments (Room.js lines 102-124 and 138-155). -/
def Client.newPeerConnection (c : Client) (remoteId : SocketId) : PeerConnection :=
  { remoteId := remoteId, tracks := c.localStream, localDescription := none,
    remoteDescription := none, candidates := [], closed := false }

/-- What the transport session does with the `try` block of `createPeerConnectionAndOffer`
(Room.js lines 127-130): `createOffer` rejects, or `setLocalDescription` rejects, or both resolve
and `pc.localDescription` is `sdp`. -/
inductive OfferOutcome where
  | createOfferRejected
  | setLocalDescriptionRejected
  | ok (sdp : Payload)
  deriving DecidableEq, Repr

/-- What the transport session does with the `try` block of `handleReceivedOffer` (Room.js lines
157-161): one of the three calls rejects, or all resolve and `pc.localDescription` is `sdp`. -/
inductive AnswerOutcome where
  | setRemoteDescriptionRejected
  | createAnswerRejected
  | setLocalDescriptionRejected
  | ok (sdp : Payload)
  deriving DecidableEq, Repr

/-- The function `createPeerConnectionAndOffer`, Room.js lines 100-134. -/
def Client.createPeerConnectionAndOffer (c : Client) (remoteId : SocketId) (o : OfferOutcome) :
    Client × List ClientMsg :=
  if (tableGet c.peerConnections remoteId).isSome then (c, [])
  else
    let pc := c.newPeerConnection remoteId
    let table := tableSet c.peerConnections remoteId c.sessions.length
    match o with
    | .createOfferRejected =>
        ({ c with sessions := c.sessions ++ [pc], peerConnections := table }, [])
    | .setLocalDescriptionRejected =>
        ({ c with sessions := c.sessions ++ [pc], peerConnections := table }, [])
    | .ok sdp =>
        ({ c with sessions := c.sessions ++ [{ pc with localDescription := some sdp }],
                  peerConnections := table }, [ClientMsg.offer remoteId sdp])

/-- The function `handleReceivedOffer`, Room.js lines 137-165. -/
def Client.handleReceivedOffer (c : Client) (fromId : SocketId) (sdp : Payload)
    (o : AnswerOutcome) : Client × List ClientMsg :=
  let pc := c.newPeerConnection fromId
  let table := tableSet c.peerConnections fromId c.sessions.length
  match o with
  | .setRemoteDescriptionRejected =>
      ({ c with sessions := c.sessions ++ [pc], peerConnections := table }, [])
  | .createAnswerRejected =>
      ({ c with sessions := c.sessions ++ [{ pc with remoteDescription := some sdp }],
                peerConnections := table }, [])
  | .setLocalDescriptionRejected =>
      ({ c with sessions := c.sessions ++ [{ pc with remoteDescription := some sdp }],
                peerConnections := table }, [])
  | .ok answer =>
      ({ c with sessions := c.sessions ++
                  [{ pc with remoteDescription := some sdp, localDescription := some answer }],
                peerConnections := table }, [ClientMsg.answer fromId answer])

/-- The `all-users` handler, Room.js lines 38-43: `createPeerConnectionAndOffer` for each listed
id in turn; `outcome` is what the transport session does for each. -/
def Client.onAllUsers (c : Client) (outcome : SocketId → OfferOutcome) :
    List SocketId → Client × List ClientMsg
  | [] => (c, [])
  | remoteId :: users =>
      let r := c.createPeerConnectionAndOffer remoteId (outcome remoteId)
      let r2 := Client.onAllUsers r.1 outcome users
      (r2.1, r.2 ++ r2.2)

/-- The `user-joined` handler, Room.js lines 46-49: it only logs. -/
def Client.onUserJoined (c : Client) (_remoteId : SocketId) : Client × List ClientMsg :=
  (c, [])

/-- The call `pc.setRemoteDescription(new RTCSessionDescription(sdp))` on session `i`: a closed
connection rejects it, otherwise the transport session decides (`accepted`). -/
def setRemoteDescription (ss : List PeerConnection) (i : Nat) (sdp : Payload) (accepted : Bool) :
    List PeerConnection :=
  updateSession ss i (fun pc =>
    if pc.closed || !accepted then pc else { pc with remoteDescription := some sdp })

/-- The call `pc.addIceCandidate(new RTCIceCandidate(candidate))` on session `i`.  By the
`RTCPeerConnection` interface the call rejects with `InvalidStateError` while
`remoteDescription` is null, and on a closed connection; otherwise the transport session decides
(`accepted`).  A rejected call changes nothing. -/
def addIceCandidate (ss : List PeerConnection) (i : Nat) (candidate : Payload) (accepted : Bool) :
    List PeerConnection :=
  updateSession ss i (fun pc =>
    if pc.closed || pc.remoteDescription.isNone || !accepted then pc
    else { pc with candidates := pc.candidates ++ [candidate] })

/-- The `answer` handler, Room.js lines 58-62. -/
def Client.onAnswer (c : Client) (sender : SocketId) (sdp : Payload) (accepted : Bool) :
    Client × List ClientMsg :=
  match tableGet c.peerConnections sender with
  | some i => ({ c with sessions := setRemoteDescription c.sessions i sdp accepted }, [])
  | none => (c, [])

/-- The `ice-candidate` handler, Room.js lines 65-74: a rejection of `addIceCandidate` is caught
and logged. -/
def Client.onIceCandidate (c : Client) (sender : SocketId) (candidate : Option Payload)
    (accepted : Bool) : Client × List ClientMsg :=
  match tableGet c.peerConnections sender, candidate with
  | some i, some cand => ({ c with sessions := addIceCandidate c.sessions i cand accepted }, [])
  | _, _ => (c, [])

/-- The `user-left` handler, Room.js lines 77-85. -/
def Client.onUserLeft (c : Client) (id : SocketId) : Client × List ClientMsg :=
  let streams := c.remoteStreams.filter (fun r => r.1 ≠ id)
  match tableGet c.peerConnections id with
  | some i =>
      ({ c with remoteStreams := streams
                sessions := updateSession c.sessions i (fun pc => { pc with closed := true })
                peerConnections := tableDelete c.peerConnections id }, [])
  | none => ({ c with remoteStreams := streams }, [])

/-- What the transport session answers while one inbound message is handled. -/
structure Transport where
  offers : SocketId → OfferOutcome
  answer : AnswerOutcome
  accepted : Bool

/-- The handler Room.js registers for each message of the relay (lines 38-85). -/
def Client.recv (c : Client) (t : Transport) : ServerMsg → Client × List ClientMsg
  | .allUsers users => c.onAllUsers t.offers users
  | .userJoined remoteId => c.onUserJoined remoteId
  | .offer sender sdp => c.handleReceivedOffer sender sdp t.answer
  | .answer sender sdp => c.onAnswer sender sdp t.accepted
  | .iceCandidate sender candidate => c.onIceCandidate sender candidate t.accepted
  | .userLeft id => c.onUserLeft id

/-- The `ontrack` closure of session `i` (Room.js lines 109-117 and 143-149), fired by an open
session: the stream is added under the captured id unless an entry for that id exists. -/
def Client.onTrack (c : Client) (i : Nat) (stream : String) : Client × List ClientMsg :=
  match c.sessions[i]? with
  | some pc =>
      if pc.closed || (c.remoteStreams.find? (fun r => r.1 = pc.remoteId)).isSome then (c, [])
      else ({ c with remoteStreams := c.remoteStreams ++ [(pc.remoteId, stream)] }, [])
  | none => (c, [])

/-- The `onicecandidate` closure of session `i` (Room.js lines 120-124 and 151-155), fired by an
open session: a truthy candidate is sent to the captured id. -/
def Client.onLocalCandidate (c : Client) (i : Nat) (candidate : Option Payload) :
    Client × List ClientMsg :=
  match c.sessions[i]?, candidate with
  | some pc, some cand =>
      if pc.closed then (c, []) else (c, [ClientMsg.iceCandidate pc.remoteId (some cand)])
  | _, _ => (c, [])

/-- What happens at a client: a message of the relay arrives, or a transport session fires
`ontrack` or `onicecandidate`. -/
inductive ClientEvent where
  | recv (m : ServerMsg) (t : Transport)
  | track (session : Nat) (stream : String)
  | localCandidate (session : Nat) (candidate : Option Payload)

/-- One client event handled to completion. -/
def Client.step (c : Client) : ClientEvent → Client × List ClientMsg
  | .recv m t => c.recv t m
  | .track i stream => c.onTrack i stream
  | .localCandidate i candidate => c.onLocalCandidate i candidate

/-- The client run over a sequence of events: the final state and every message it emitted to
the relay, in order. -/
def Client.run (c : Client) : List ClientEvent → Client × List ClientMsg
  | [] => (c, [])
  | e :: es =>
      let r := c.step e
      let r2 := Client.run r.1 es
      (r2.1, r.2 ++ r2.2)

/-- The messages of the relay among a client's events, in order. -/
def received (evs : List ClientEvent) : List ServerMsg :=
  evs.filterMap (fun e => match e with
    | .recv m _ => some m
    | _ => none)

/-- The transport sessions for remote id `x` that are not closed. -/
def liveSessions (c : Client) (x : SocketId) : List PeerConnection :=
  c.sessions.filter (fun pc => pc.remoteId = x && !pc.closed)

/-! ## Mounting and joining (client/src/Room.js lines 10-35 and 87-97) -/

/-- The part of one mounted `Room` component that decides what its socket joins.  `socketRef` is
`socketRef.current`, the socket made by the latest run of the effect; `pending` holds, for each
call of `setupLocal` still awaiting `getUserMedia`, the `roomId` its closure captured, oldest
first.  Both refs outlive a run of the effect. -/
structure Component where
  socketRef : SocketId
  pending : List Room
  deriving DecidableEq, Repr

/-- The effect body, Room.js lines 19-35: `io(..)` makes a new socket (the relay sees it connect
under the id `id`), the socket is stored in `socketRef.current`, and `setupLocal()` is called
and suspends at `await getUserMedia`.  `pending` are the earlier calls still suspended. -/
def Component.effect (pending : List Room) (roomId : Room) (id : SocketId) :
    Component × List RelayEvent :=
  ({ socketRef := id, pending := pending ++ [roomId] }, [RelayEvent.connection id])

/-- The cleanup of the effect, Room.js lines 87-95, as the relay sees it:
`socketRef.current.disconnect()`.  No suspended `setupLocal` is cancelled. -/
def Component.cleanup (c : Component) : List RelayEvent :=
  [RelayEvent.disconnect c.socketRef]

/-- The rest of a `setupLocal` call once its `getUserMedia` settles, Room.js lines 25-32, for the
call whose closure captured `roomId`: when access is granted, line 28 emits
`join-room` with that `roomId` on `socketRef.current` as it is at that moment; when it is denied
the catch block only alerts. -/
def Component.setupLocal (c : Component) (roomId : Room) (granted : Bool) : List RelayEvent :=
  if granted then [RelayEvent.message c.socketRef (ClientMsg.joinRoom roomId)] else []

/-- What the browser does to the `Room` components: a component mounts under a route
`/room/roomId`; the `roomId` of component `k` changes (the effect is keyed on `roomId`, line
97, so its cleanup runs and then the effect again); the `getUserMedia` call of the `j`-th
suspended `setupLocal` of component `k` settles.  `id` is the id socket.io gives the new
socket. -/
inductive BrowserEvent where
  | mount (roomId : Room) (id : SocketId)
  | roomIdChanged (k : Nat) (roomId : Room) (id : SocketId)
  | getUserMedia (k : Nat) (j : Nat) (granted : Bool)
  deriving DecidableEq, Repr

/-- One browser event: the components afterwards and what reaches the relay, in order. -/
def Browser.step (cs : List Component) : BrowserEvent → List Component × List RelayEvent
  | .mount roomId id =>
      let r := Component.effect [] roomId id
      (cs ++ [r.1], r.2)
  | .roomIdChanged k roomId id =>
      match cs[k]? with
      | some c =>
          let r := Component.effect c.pending roomId id
          (cs.set k r.1, c.cleanup ++ r.2)
      | none => (cs, [])
  | .getUserMedia k j granted =>
      match cs[k]? with
      | some c =>
          match c.pending[j]? with
          | some roomId =>
              (cs.set k { c with pending := c.pending.eraseIdx j }, c.setupLocal roomId granted)
          | none => (cs, [])
      | none => (cs, [])

/-- The events that reach the relay over a sequence of browser events. -/
def Browser.trace (cs : List Component) : List BrowserEvent → List RelayEvent
  | [] => []
  | e :: es => (Browser.step cs e).2 ++ Browser.trace (Browser.step cs e).1 es

/-- The messages the relay sent to socket `id`, in the order it sent them. -/
def inbox (log : List Delivery) (id : SocketId) : List ServerMsg :=
  (log.filter (fun d => d.1 = id)).map (fun d => d.2)

/-- The client handling a sequence of relay messages one after the other, the transport session
answering `t` each time. -/
def Client.handleAll (c : Client) (t : Transport) (msgs : List ServerMsg) :
    Client × List ClientMsg :=
  c.run (msgs.map (fun m => ClientEvent.recv m t))

/-! ## Concrete states used by the witnesses and counterexamples -/

/-- A transport session that resolves every call. -/
def Transport.resolving : Transport :=
  ⟨fun _ => OfferOutcome.ok "offer-sdp", AnswerOutcome.ok "answer-sdp", true⟩

/-- A transport session that rejects every call. -/
def Transport.rejecting : Transport :=
  ⟨fun _ => OfferOutcome.createOfferRejected, AnswerOutcome.setRemoteDescriptionRejected, false⟩

/-- A client that joined with its camera on and was told that `x` is in the room: it holds an
initiator link to `x` whose offer has been sent and whose answer has not arrived. -/
def Client.awaitingAnswer : Client :=
  ((Client.init (some "cam")).recv Transport.resolving (ServerMsg.allUsers ["x"])).1

/-- The `join-room` message of socket `id` for room `roomId`. -/
def joinEvent (roomId : Room) (id : SocketId) : RelayEvent :=
  RelayEvent.message id (ClientMsg.joinRoom roomId)

/-- Two users, each changing room while the camera prompt is still open.  The first opens
`/room/r1` (socket `a1`) and moves to `/room/r2` (socket `a2`); the second opens `/room/r2`
(socket `b1`) and moves to `/room/r1` (socket `b2`).  Then each of the four `getUserMedia`
calls is granted: the first's call for `r1`, the second's for `r2`, the first's for `r2`, the
second's for `r1`. -/
def Browser.roomChangesWhilePrompted : List BrowserEvent :=
  [BrowserEvent.mount "r1" "a1", BrowserEvent.roomIdChanged 0 "r2" "a2",
   BrowserEvent.mount "r2" "b1", BrowserEvent.roomIdChanged 1 "r1" "b2",
   BrowserEvent.getUserMedia 0 0 true, BrowserEvent.getUserMedia 1 0 true,
   BrowserEvent.getUserMedia 0 0 true, BrowserEvent.getUserMedia 1 0 true]

/-! ## Predicates used to state the relay's properties -/

/-- The state of a relay that socket.io keeps consistent: every member of a room is a connected
socket, and every connected socket is in the room named by its own id. -/
def Relay.Consistent (s : Relay) : Prop :=
  (∀ p ∈ s.memberships, p.2 ∈ s.sockets) ∧ (∀ x ∈ s.sockets, (x, x) ∈ s.memberships)

/-- Socket `a` was sent `b` in an `all-users` list and `b` was sent `user-joined` for `a`, and
not the other way round. -/
def linkedOneWay (log : List Delivery) (a b : SocketId) : Prop :=
  gotInAllUsers log a b ∧ gotUserJoined log b a ∧
    ¬ gotInAllUsers log b a ∧ ¬ gotUserJoined log a b

/-- A relay in which sockets `a` and `b` are connected and nothing else has happened. -/
def Relay.twoSockets : Relay :=
  (Relay.run Relay.init [RelayEvent.connection "a", RelayEvent.connection "b"]).1

/-- A relay in which sockets `a` and `b` are connected and both joined room `r1`. -/
def Relay.twoInRoom : Relay :=
  (Relay.run Relay.twoSockets [joinEvent "r1" "a", joinEvent "r1" "b"]).1

/-- A relay in which sockets `p`, `c` and `d` are connected and `c` joined the room named `p`. -/
def Relay.joinedOwnRoom : Relay :=
  (Relay.run Relay.init [RelayEvent.connection "p", RelayEvent.connection "c",
    RelayEvent.connection "d", joinEvent "p" "c"]).1

/-- What holds of the relay's state `s` and of the packets `log` it emitted after a trace `tr`
in which every socket sends `join-room` at most once and no room name is the id of a socket:
members are connected sockets that connected in the trace; a member of a room not named by its
own id joined it; `all-users` lists and `user-joined` notices went to sockets that joined and
name sockets that joined; and two sockets in one room are linked one way. -/
structure RelayInv (tr : List RelayEvent) (s : Relay) (log : List Delivery) : Prop where
  connected : ∀ p ∈ s.memberships, p.2 ∈ s.sockets
  known : ∀ x ∈ s.sockets, x ∈ connectionIds tr
  joined : ∀ p ∈ s.memberships, p.1 = p.2 ∨ (p.2 ∈ joinSenders tr ∧ p.1 ∈ joinedRooms tr)
  listed : ∀ x users, (x, ServerMsg.allUsers users) ∈ log →
    x ∈ joinSenders tr ∧ ∀ y ∈ users, y ∈ joinSenders tr ∧ y ≠ x
  notified : ∀ x y, (x, ServerMsg.userJoined y) ∈ log → x ∈ joinSenders tr ∧ y ∈ joinSenders tr
  oneWay : ∀ x y, gotInAllUsers log x y → ¬ gotInAllUsers log y x
  linked : ∀ r x y, x ≠ y → (r, x) ∈ s.memberships → (r, y) ∈ s.memberships →
    linkedOneWay log x y ∨ linkedOneWay log y x

/-- A packet that is neither an `all-users` list nor a `user-joined` notice. -/
def Delivery.quiet (d : Delivery) : Prop :=
  (∀ users, d.2 ≠ ServerMsg.allUsers users) ∧ (∀ y, d.2 ≠ ServerMsg.userJoined y)

/-! ## Lemmas on the client's table and sessions -/

theorem tableGet_tableDelete_self (t : List (SocketId × Nat)) (x : SocketId) :
    tableGet (tableDelete t x) x = none := by
  induction t with
  | nil => rfl
  | cons e t ih =>
    obtain ⟨k, v⟩ := e
    by_cases h : k = x
    · simpa [tableDelete, h] using ih
    · simpa [tableDelete, h, tableGet] using ih

theorem tableGet_tableSet (t : List (SocketId × Nat)) (x y : SocketId) (v : Nat) :
    tableGet (tableSet t x v) y = if y = x then some v else tableGet t y := by
  induction t with
  | nil =>
    by_cases h : y = x
    · simp [tableSet, tableGet, h]
    · have h2 : ¬ x = y := fun e => h e.symm
      simp [tableSet, tableGet, h, h2]
  | cons e t ih =>
    obtain ⟨k, w⟩ := e
    by_cases hk : k = x
    · subst hk
      by_cases h : y = k
      · simp [tableSet, tableGet, h]
      · have h2 : ¬ k = y := fun e => h e.symm
        simp [tableSet, tableGet, h, h2]
    · by_cases hy : k = y
      · subst hy
        simp [tableSet, tableGet, hk]
      · simp [tableSet, tableGet, hk, hy, ih]

theorem updateSession_getElem (ss : List PeerConnection) (i : Nat)
    (f : PeerConnection → PeerConnection) :
    (updateSession ss i f)[i]? = (ss[i]?).map f := by
  unfold updateSession
  cases h : ss[i]? with
  | none => simp [h]
  | some pc =>
    have hi : i < ss.length := by
      rcases Nat.lt_or_ge i ss.length with h1 | h1
      · exact h1
      · simp [List.getElem?_eq_none h1] at h
    simp [List.getElem?_set, hi]

theorem updateSession_self (ss : List PeerConnection) (i : Nat)
    (f : PeerConnection → PeerConnection) (hf : ∀ pc, ss[i]? = some pc → f pc = pc) :
    updateSession ss i f = ss := by
  unfold updateSession
  cases h : ss[i]? with
  | none => rfl
  | some pc =>
    simp only
    rw [hf pc h]
    apply List.ext_getElem?
    intro j
    by_cases hj : i = j
    · subst hj
      rw [List.getElem?_set]
      simp [h]
      rcases Nat.lt_or_ge i ss.length with h1 | h1
      · exact h1
      · simp [List.getElem?_eq_none h1] at h
    · simp [List.getElem?_set, hj]

/-! ## The client's handlers (claims C5, C6, C7, C9, C10) -/

/-- C6: when the table already holds a link to `x`, `createPeerConnectionAndOffer x` changes
nothing (same table, same sessions) and sends nothing, whatever the transport would answer; so
does an `all-users` list made of `x`. -/
theorem createPeerConnectionAndOffer_existing_noop (c : Client) (x : SocketId) (o : OfferOutcome)
    (t : Transport) (h : (tableGet c.peerConnections x).isSome) :
    c.createPeerConnectionAndOffer x o = (c, []) ∧
    c.recv t (ServerMsg.allUsers [x]) = (c, []) := by
  have h1 : ∀ o, c.createPeerConnectionAndOffer x o = (c, []) := by
    intro o
    simp [Client.createPeerConnectionAndOffer, h]
  refine ⟨h1 o, ?_⟩
  simp [Client.recv, Client.onAllUsers, h1]

theorem createPeerConnectionAndOffer_existing_noop_witness :
    (tableGet Client.awaitingAnswer.peerConnections "x").isSome ∧
    Client.awaitingAnswer.createPeerConnectionAndOffer "x" (OfferOutcome.ok "second") =
      (Client.awaitingAnswer, []) :=
  ⟨by decide,
   (createPeerConnectionAndOffer_existing_noop Client.awaitingAnswer "x" (OfferOutcome.ok "second")
      Transport.resolving (by decide)).1⟩

/-- C7: handling `user-left` for `x` sends nothing, closes the session the table held for `x`,
and leaves neither a table entry nor a remote-stream entry for `x`; in the state it leaves, an
`answer` or an `ice-candidate` from `x` changes nothing and sends nothing. -/
theorem userLeft_closes_and_forgets (c : Client) (x : SocketId) :
    (c.onUserLeft x).2 = [] ∧
    tableGet (c.onUserLeft x).1.peerConnections x = none ∧
    (∀ e ∈ (c.onUserLeft x).1.remoteStreams, e.1 ≠ x) ∧
    (∀ i pc, tableGet c.peerConnections x = some i → c.sessions[i]? = some pc →
      (c.onUserLeft x).1.sessions[i]? = some { pc with closed := true }) ∧
    (∀ sdp accepted, (c.onUserLeft x).1.onAnswer x sdp accepted = ((c.onUserLeft x).1, [])) ∧
    (∀ candidate accepted,
      (c.onUserLeft x).1.onIceCandidate x candidate accepted = ((c.onUserLeft x).1, [])) := by
  have hget : tableGet (c.onUserLeft x).1.peerConnections x = none := by
    unfold Client.onUserLeft
    cases h : tableGet c.peerConnections x with
    | none => simpa using h
    | some i => simpa using tableGet_tableDelete_self c.peerConnections x
  refine ⟨?_, hget, ?_, ?_, ?_, ?_⟩
  · unfold Client.onUserLeft
    cases h : tableGet c.peerConnections x <;> rfl
  · intro e he
    have he2 : e ∈ c.remoteStreams.filter (fun r => r.1 ≠ x) := by
      unfold Client.onUserLeft at he
      cases h : tableGet c.peerConnections x <;> simpa [h] using he
    simpa using (List.mem_filter.mp he2).2
  · intro i pc hi hpc
    unfold Client.onUserLeft
    simp only [hi]
    rw [updateSession_getElem, hpc]
    rfl
  · intro sdp accepted
    simp [Client.onAnswer, hget]
  · intro candidate accepted
    simp [Client.onIceCandidate, hget]

theorem userLeft_closes_and_forgets_witness :
    tableGet Client.awaitingAnswer.peerConnections "x" = some 0 ∧
    ((Client.awaitingAnswer.onUserLeft "x").1.sessions[0]?).map (fun pc => pc.closed) =
      some true ∧
    (Client.awaitingAnswer.onUserLeft "x").1.onAnswer "x" "late" true =
      ((Client.awaitingAnswer.onUserLeft "x").1, []) :=
  ⟨by decide, by decide,
   (userLeft_closes_and_forgets Client.awaitingAnswer "x").2.2.2.2.1 "late" true⟩

/-- C5, as stated, fails: the client holds an initiator link to `x` whose remote description is
not yet applied; a candidate from `x` arrives and is handled; then the answer of `x` arrives and
its description is applied.  The candidate is not among the candidates applied to the session. -/
theorem early_candidate_lost :
    tableGet Client.awaitingAnswer.peerConnections "x" = some 0 ∧
    (Client.awaitingAnswer.sessions[0]?).map (fun pc => pc.remoteDescription) = some none ∧
    (((Client.awaitingAnswer.onIceCandidate "x" (some "cand") true).1.onAnswer "x" "answer-sdp"
        true).1.sessions[0]?).map (fun pc => (pc.remoteDescription, pc.candidates)) =
      some (some "answer-sdp", []) := by
  decide

/-- C5, amended: a candidate that arrives for a link whose remote description is not applied is
handed to `addIceCandidate` at once, rejected, and dropped: the client state is unchanged,
nothing is sent, and whatever happens afterwards happens as if it had never arrived (it is not
queued or replayed).  A candidate that arrives once the remote description is applied, on an
open session that accepts it, is appended to the session's applied candidates. -/
theorem early_candidate_dropped (c : Client) (x : SocketId) (cand : Payload) (i : Nat)
    (pc : PeerConnection) (hx : tableGet c.peerConnections x = some i)
    (hpc : c.sessions[i]? = some pc) :
    (pc.remoteDescription = none → ∀ accepted,
      c.onIceCandidate x (some cand) accepted = (c, []) ∧
      ∀ evs, (c.onIceCandidate x (some cand) accepted).1.run evs = c.run evs) ∧
    (pc.remoteDescription ≠ none → pc.closed = false →
      (c.onIceCandidate x (some cand) true).1.sessions[i]? =
        some { pc with candidates := pc.candidates ++ [cand] }) := by
  constructor
  · intro hnone accepted
    have h : c.onIceCandidate x (some cand) accepted = (c, []) := by
      unfold Client.onIceCandidate
      simp only [hx]
      unfold addIceCandidate
      rw [updateSession_self]
      intro pc2 hpc2
      have : pc2 = pc := by rw [hpc] at hpc2; exact (Option.some.inj hpc2).symm
      subst this
      simp [hnone]
    exact ⟨h, fun evs => by rw [h]⟩
  · intro hsome hopen
    unfold Client.onIceCandidate
    simp only [hx]
    unfold addIceCandidate
    rw [updateSession_getElem, hpc]
    simp [hopen]
    intro h
    exact absurd h hsome

theorem early_candidate_dropped_witness :
    tableGet Client.awaitingAnswer.peerConnections "x" = some 0 ∧
    Client.awaitingAnswer.onIceCandidate "x" (some "cand") true = (Client.awaitingAnswer, []) :=
  ⟨by decide,
   ((early_candidate_dropped Client.awaitingAnswer "x" "cand" 0
      (Client.awaitingAnswer.newPeerConnection "x" |> fun pc =>
        { pc with localDescription := some "offer-sdp" })
      (by decide) (by decide)).1 (by decide) true).1⟩

/-- C9, as stated, fails: `createOffer` is rejected for a new link to `x`, and the client is
left with that link as the table's entry for `x`, its transport session not closed; likewise
when `setRemoteDescription` is rejected for an offer received from `x`. -/
theorem rejected_link_not_closed :
    tableGet ((Client.init (some "cam")).createPeerConnectionAndOffer "x"
        OfferOutcome.createOfferRejected).1.peerConnections "x" = some 0 ∧
    (((Client.init (some "cam")).createPeerConnectionAndOffer "x"
        OfferOutcome.createOfferRejected).1.sessions[0]?).map (fun pc => pc.closed) =
      some false ∧
    tableGet ((Client.init (some "cam")).handleReceivedOffer "x" "offer-sdp"
        AnswerOutcome.setRemoteDescriptionRejected).1.peerConnections "x" = some 0 ∧
    (((Client.init (some "cam")).handleReceivedOffer "x" "offer-sdp"
        AnswerOutcome.setRemoteDescriptionRejected).1.sessions[0]?).map (fun pc => pc.closed) =
      some false := by
  decide

/-- C9, amended: when offer creation, answer creation or description application is rejected,
Room.js logs and does nothing else.  In `createPeerConnectionAndOffer` (no link to `x` before)
and in `handleReceivedOffer` the session just built stays open and is the table's entry for
`x`, and nothing is sent; in the `answer` handler the state does not change.  In each case
every session built earlier, every table entry of another id and the remote streams are left
as they were. -/
theorem rejected_description_only_logged (c : Client) (x : SocketId) (sdp : Payload) :
    (∀ o, o = OfferOutcome.createOfferRejected ∨ o = OfferOutcome.setLocalDescriptionRejected →
      tableGet c.peerConnections x = none →
      (c.createPeerConnectionAndOffer x o).2 = [] ∧
      tableGet (c.createPeerConnectionAndOffer x o).1.peerConnections x = some c.sessions.length ∧
      (∃ pc, pc.closed = false ∧ pc.remoteId = x ∧
        (c.createPeerConnectionAndOffer x o).1.sessions = c.sessions ++ [pc]) ∧
      (∀ y, y ≠ x → tableGet (c.createPeerConnectionAndOffer x o).1.peerConnections y =
        tableGet c.peerConnections y) ∧
      (c.createPeerConnectionAndOffer x o).1.remoteStreams = c.remoteStreams) ∧
    (∀ o, (∀ answer, o ≠ AnswerOutcome.ok answer) →
      (c.handleReceivedOffer x sdp o).2 = [] ∧
      tableGet (c.handleReceivedOffer x sdp o).1.peerConnections x = some c.sessions.length ∧
      (∃ pc, pc.closed = false ∧ pc.remoteId = x ∧
        (c.handleReceivedOffer x sdp o).1.sessions = c.sessions ++ [pc]) ∧
      (∀ y, y ≠ x → tableGet (c.handleReceivedOffer x sdp o).1.peerConnections y =
        tableGet c.peerConnections y) ∧
      (c.handleReceivedOffer x sdp o).1.remoteStreams = c.remoteStreams) ∧
    c.onAnswer x sdp false = (c, []) := by
  refine ⟨?_, ?_, ?_⟩
  · intro o ho hnone
    have hn : (tableGet c.peerConnections x).isSome = false := by simp [hnone]
    rcases ho with rfl | rfl
    · simp only [Client.createPeerConnectionAndOffer, hn]
      refine ⟨by trivial, by simp [tableGet_tableSet], ⟨c.newPeerConnection x, rfl, rfl, by trivial⟩, ?_, by trivial⟩
      intro y hy
      simp [tableGet_tableSet, hy]
    · simp only [Client.createPeerConnectionAndOffer, hn]
      refine ⟨by trivial, by simp [tableGet_tableSet], ⟨c.newPeerConnection x, rfl, rfl, by trivial⟩, ?_, by trivial⟩
      intro y hy
      simp [tableGet_tableSet, hy]
  · intro o ho
    cases o with
    | ok answer => exact absurd rfl (ho answer)
    | setRemoteDescriptionRejected =>
      simp only [Client.handleReceivedOffer]
      refine ⟨by trivial, by simp [tableGet_tableSet], ⟨c.newPeerConnection x, rfl, rfl, by trivial⟩, ?_, by trivial⟩
      intro y hy
      simp [tableGet_tableSet, hy]
    | createAnswerRejected =>
      simp only [Client.handleReceivedOffer]
      refine ⟨by trivial, by simp [tableGet_tableSet], ⟨_, ?_, ?_, rfl⟩, ?_, by trivial⟩
      · rfl
      · rfl
      · intro y hy
        simp [tableGet_tableSet, hy]
    | setLocalDescriptionRejected =>
      simp only [Client.handleReceivedOffer]
      refine ⟨by trivial, by simp [tableGet_tableSet], ⟨_, ?_, ?_, rfl⟩, ?_, by trivial⟩
      · rfl
      · rfl
      · intro y hy
        simp [tableGet_tableSet, hy]
  · unfold Client.onAnswer
    cases h : tableGet c.peerConnections x with
    | none => rfl
    | some i =>
      simp only
      unfold setRemoteDescription
      rw [updateSession_self]
      intro pc _
      simp

/-- C10: a client that receives two offers from `x` is left with two transport sessions for `x`
that are not closed, the first no longer reachable from the table; so is a client that was told
`x` is in the room (and opened an initiator link) and then receives an offer from `x`. -/
theorem second_offer_second_live_session :
    (liveSessions ((Client.init (some "cam")).run
        [ClientEvent.recv (ServerMsg.offer "x" "offer-1") Transport.resolving,
         ClientEvent.recv (ServerMsg.offer "x" "offer-2") Transport.resolving]).1 "x").length = 2 ∧
    ((Client.init (some "cam")).run
        [ClientEvent.recv (ServerMsg.offer "x" "offer-1") Transport.resolving,
         ClientEvent.recv (ServerMsg.offer "x" "offer-2") Transport.resolving]).1.peerConnections
      = [("x", 1)] ∧
    (liveSessions ((Client.init (some "cam")).run
        [ClientEvent.recv (ServerMsg.allUsers ["x"]) Transport.resolving,
         ClientEvent.recv (ServerMsg.offer "x" "offer-1") Transport.resolving]).1 "x").length = 2 := by
  decide

/-! ## Lemmas on the relay's rooms -/

theorem mem_roomsGet {s : Relay} {r : Room} {x : SocketId} :
    x ∈ roomsGet s r ↔ (r, x) ∈ s.memberships := by
  unfold roomsGet
  simp only [List.mem_map, List.mem_filter, decide_eq_true_eq]
  constructor
  · rintro ⟨⟨r2, x2⟩, ⟨hp, hr⟩, hx⟩
    simp only at hr hx
    subst hr hx
    exact hp
  · intro h
    exact ⟨(r, x), ⟨h, rfl⟩, rfl⟩

theorem mem_socketRooms {s : Relay} {r : Room} {x : SocketId} :
    r ∈ socketRooms s x ↔ (r, x) ∈ s.memberships := by
  unfold socketRooms
  simp only [List.mem_map, List.mem_filter, decide_eq_true_eq]
  constructor
  · rintro ⟨⟨r2, x2⟩, ⟨hp, hr⟩, hx⟩
    simp only at hr hx
    subst hr hx
    exact hp
  · intro h
    exact ⟨(r, x), ⟨h, rfl⟩, rfl⟩

theorem socketJoin_sockets (s : Relay) (id : SocketId) (r : Room) :
    (socketJoin s id r).sockets = s.sockets := by
  unfold socketJoin
  split <;> rfl

theorem mem_socketJoin {s : Relay} {id : SocketId} {r : Room} {p : Room × SocketId} :
    p ∈ (socketJoin s id r).memberships ↔ p ∈ s.memberships ∨ p = (r, id) := by
  unfold socketJoin
  split
  · rename_i h
    constructor
    · exact Or.inl
    · rintro (h1 | h1)
      · exact h1
      · exact h1 ▸ h
  · simp

theorem roomsGet_socketJoin_new (s : Relay) (id : SocketId) (r : Room)
    (h : id ∉ roomsGet s r) : roomsGet (socketJoin s id r) r = roomsGet s r ++ [id] := by
  have h2 : (r, id) ∉ s.memberships := fun hm => h (mem_roomsGet.mpr hm)
  simp [socketJoin, h2, roomsGet, List.filter_append]

theorem mem_broadcast {s : Relay} {r : Room} {ex : List Room} {t : SocketId} :
    t ∈ broadcast s r ex ↔
      (r, t) ∈ s.memberships ∧ (∀ e ∈ ex, (e, t) ∉ s.memberships) ∧ t ∈ s.sockets := by
  unfold broadcast
  simp only [List.mem_filter, Bool.and_eq_true, decide_eq_true_eq, mem_roomsGet]

theorem run_append (s : Relay) (tr tr2 : List RelayEvent) :
    Relay.run s (tr ++ tr2) =
      ((Relay.run (Relay.run s tr).1 tr2).1, (Relay.run s tr).2 ++ (Relay.run (Relay.run s tr).1 tr2).2) := by
  induction tr generalizing s with
  | nil => simp [Relay.run]
  | cons e tr ih => simp [Relay.run, ih, List.append_assoc]

theorem run_snoc (s : Relay) (tr : List RelayEvent) (e : RelayEvent) :
    Relay.run s (tr ++ [e]) =
      (((Relay.run s tr).1.step e).1, (Relay.run s tr).2 ++ ((Relay.run s tr).1.step e).2) := by
  rw [run_append]
  simp [Relay.run]

theorem step_connection (s : Relay) (id : SocketId) :
    s.step (RelayEvent.connection id) =
      if id ∈ s.sockets then (s, [])
      else (socketJoin { s with sockets := s.sockets ++ [id] } id id, []) := rfl

theorem step_disconnect (s : Relay) (id : SocketId) :
    s.step (RelayEvent.disconnect id) =
      if id ∈ s.sockets then (socketLeaveAll s id, s.onDisconnecting id) else (s, []) := rfl

theorem step_joinRoom (s : Relay) (id : SocketId) (roomId : Room) :
    s.step (RelayEvent.message id (ClientMsg.joinRoom roomId)) =
      if id ∈ s.sockets then s.onJoinRoom id roomId else (s, []) := rfl

theorem step_offer (s : Relay) (id : SocketId) (toId : String) (sdp : Payload) :
    s.step (RelayEvent.message id (ClientMsg.offer toId sdp)) =
      if id ∈ s.sockets then s.onOffer id toId sdp else (s, []) := rfl

theorem step_answer (s : Relay) (id : SocketId) (toId : String) (sdp : Payload) :
    s.step (RelayEvent.message id (ClientMsg.answer toId sdp)) =
      if id ∈ s.sockets then s.onAnswer id toId sdp else (s, []) := rfl

theorem step_iceCandidate (s : Relay) (id : SocketId) (toId : String)
    (candidate : Option Payload) :
    s.step (RelayEvent.message id (ClientMsg.iceCandidate toId candidate)) =
      if id ∈ s.sockets then s.onIceCandidate id toId candidate else (s, []) := rfl

theorem step_consistent (s : Relay) (e : RelayEvent) (h : s.Consistent) :
    (s.step e).1.Consistent := by
  obtain ⟨h1, h2⟩ := h
  cases e with
  | connection id =>
    rw [step_connection]
    split
    · exact ⟨h1, h2⟩
    · constructor
      · intro p hp
        rw [socketJoin_sockets]
        rcases mem_socketJoin.mp hp with hp | hp
        · exact List.mem_append_left _ (h1 p hp)
        · subst hp
          simp
      · intro x hx
        rw [socketJoin_sockets] at hx
        apply mem_socketJoin.mpr
        rcases List.mem_append.mp hx with hx | hx
        · exact Or.inl (h2 x hx)
        · simp only [List.mem_singleton] at hx
          subst hx
          exact Or.inr rfl
  | message id m =>
    cases m with
    | joinRoom roomId =>
      rw [step_joinRoom]
      split
      · rename_i hid
        simp only [Relay.onJoinRoom]
        constructor
        · intro p hp
          rw [socketJoin_sockets]
          rcases mem_socketJoin.mp hp with hp | hp
          · exact h1 p hp
          · subst hp
            exact hid
        · intro x hx
          rw [socketJoin_sockets] at hx
          exact mem_socketJoin.mpr (Or.inl (h2 x hx))
      · exact ⟨h1, h2⟩
    | offer toId sdp =>
      rw [step_offer]
      split <;> exact ⟨h1, h2⟩
    | answer toId sdp =>
      rw [step_answer]
      split <;> exact ⟨h1, h2⟩
    | iceCandidate toId candidate =>
      rw [step_iceCandidate]
      split <;> exact ⟨h1, h2⟩
  | disconnect id =>
    rw [step_disconnect]
    split
    · simp only [socketLeaveAll]
      constructor
      · intro p hp
        simp only [List.mem_filter, decide_eq_true_eq] at hp ⊢
        exact ⟨h1 p hp.1, by simpa using hp.2⟩
      · intro x hx
        simp only [List.mem_filter, decide_eq_true_eq] at hx ⊢
        exact ⟨h2 x hx.1, by simpa using hx.2⟩
    · exact ⟨h1, h2⟩

theorem run_consistent (s : Relay) (tr : List RelayEvent) (h : s.Consistent) :
    (Relay.run s tr).1.Consistent := by
  induction tr generalizing s with
  | nil => exact h
  | cons e tr ih => exact ih _ (step_consistent s e h)

theorem init_consistent : Relay.init.Consistent := by
  constructor <;> intro _ h <;> cases h

/-! ## The relay's handlers (claims C1, C3, C4) -/

/-- C3: an `offer` whose `to` names a room reaches every member of that room, the sender
included; and an `offer` addressed to the id of socket `p` also reaches a socket that joined
the room named `p`. -/
theorem offer_reaches_every_room_member :
    "a" ∈ Relay.twoInRoom.sockets ∧
    (Relay.twoInRoom.step (RelayEvent.message "a" (ClientMsg.offer "r1" "sdp"))).2 =
      [("a", ServerMsg.offer "a" "sdp"), ("b", ServerMsg.offer "a" "sdp")] ∧
    (Relay.joinedOwnRoom.step (RelayEvent.message "d" (ClientMsg.offer "p" "sdp"))).2 =
      [("p", ServerMsg.offer "d" "sdp"), ("c", ServerMsg.offer "d" "sdp")] := by
  decide

/-- C4, as stated, fails: socket `c` joined the room named by the id of socket `p`, so `p`
belongs to a room with another member; when `p` disconnects nothing is sent to anyone. -/
theorem own_room_member_not_notified :
    "p" ∈ roomsGet Relay.joinedOwnRoom "p" ∧ "c" ∈ roomsGet Relay.joinedOwnRoom "p" ∧
    (Relay.joinedOwnRoom.step (RelayEvent.disconnect "p")).2 = [] := by
  decide

/-- C4, amended: in every state the relay reaches, when socket `p` disconnects and no other
socket is in the room named by the id of `p`, every other member of every room `p` belongs to
is sent `user-left` carrying the id of `p`, `p` itself is sent nothing, and nothing else is
sent. -/
theorem disconnect_notifies_room_mates (tr : List RelayEvent) (p : SocketId)
    (hown : ∀ x ∈ roomsGet (Relay.run Relay.init tr).1 p, x = p) :
    (∀ r x, p ∈ roomsGet (Relay.run Relay.init tr).1 r → x ∈ roomsGet (Relay.run Relay.init tr).1 r →
      x ≠ p →
      (x, ServerMsg.userLeft p) ∈ ((Relay.run Relay.init tr).1.step (RelayEvent.disconnect p)).2) ∧
    (∀ m, (p, m) ∉ ((Relay.run Relay.init tr).1.step (RelayEvent.disconnect p)).2) ∧
    (∀ d ∈ ((Relay.run Relay.init tr).1.step (RelayEvent.disconnect p)).2,
      d.2 = ServerMsg.userLeft p ∧
      ∃ r, p ∈ roomsGet (Relay.run Relay.init tr).1 r ∧ d.1 ∈ roomsGet (Relay.run Relay.init tr).1 r) := by
  obtain ⟨h1, h2⟩ := run_consistent Relay.init tr init_consistent
  generalize (Relay.run Relay.init tr).1 = s at hown h1 h2 ⊢
  have hout : ∀ d, d ∈ (s.step (RelayEvent.disconnect p)).2 ↔
      p ∈ s.sockets ∧ ∃ r, (r, p) ∈ s.memberships ∧ r ≠ p ∧
        d.1 ∈ broadcast s r [p] ∧ d.2 = ServerMsg.userLeft p := by
    intro d
    rw [step_disconnect]
    split
    · rename_i hp
      simp only [Relay.onDisconnecting, List.mem_flatMap, List.mem_filter, mem_socketRooms,
        decide_eq_true_eq, List.mem_map, hp, true_and]
      constructor
      · rintro ⟨r, ⟨hr, hrp⟩, t, ht, rfl⟩
        exact ⟨r, hr, by simpa using hrp, ht, rfl⟩
      · rintro ⟨r, hr, hrp, ht, hd⟩
        refine ⟨r, ⟨hr, by simpa using hrp⟩, d.1, ht, ?_⟩
        rw [← hd]
    · rename_i hp
      simp [hp]
  refine ⟨?_, ?_, ?_⟩
  · intro r x hpr hxr hxp
    rw [mem_roomsGet] at hpr hxr
    have hrp : r ≠ p := by
      rintro rfl
      exact hxp (hown x (mem_roomsGet.mpr hxr))
    refine (hout _).mpr ⟨h1 _ hpr, r, hpr, hrp, ?_, rfl⟩
    refine mem_broadcast.mpr ⟨hxr, ?_, h1 _ hxr⟩
    intro e he hmem
    simp only [List.mem_singleton] at he
    subst he
    exact hxp (hown x (mem_roomsGet.mpr hmem))
  · intro m hm
    obtain ⟨hp, r, _, _, ht, _⟩ := (hout _).mp hm
    have := (mem_broadcast.mp ht).2.1 p (by simp)
    exact this (h2 p hp)
  · intro d hd
    obtain ⟨_, r, hr, _, ht, hmsg⟩ := (hout _).mp hd
    exact ⟨hmsg, r, mem_roomsGet.mpr hr, mem_roomsGet.mpr (mem_broadcast.mp ht).1⟩

theorem disconnect_notifies_room_mates_witness :
    (∀ x ∈ roomsGet (Relay.run Relay.init [RelayEvent.connection "a", RelayEvent.connection "b",
        joinEvent "r1" "a", joinEvent "r1" "b"]).1 "a", x = "a") ∧
    ("b", ServerMsg.userLeft "a") ∈ ((Relay.run Relay.init [RelayEvent.connection "a",
        RelayEvent.connection "b", joinEvent "r1" "a", joinEvent "r1" "b"]).1.step
          (RelayEvent.disconnect "a")).2 :=
  ⟨by decide,
   (disconnect_notifies_room_mates [RelayEvent.connection "a", RelayEvent.connection "b",
      joinEvent "r1" "a", joinEvent "r1" "b"] "a" (by decide)).1 "r1" "b" (by decide) (by decide)
      (by decide)⟩

theorem allUsersSent_append (l1 l2 : List Delivery) :
    allUsersSent (l1 ++ l2) = allUsersSent l1 ++ allUsersSent l2 := by
  simp [allUsersSent, List.filterMap_append]

theorem allUsersSent_userJoined (ts : List SocketId) (id : SocketId) :
    allUsersSent (ts.map (fun t => (t, ServerMsg.userJoined id))) = [] := by
  induction ts with
  | nil => rfl
  | cons t ts ih =>
    simp only [allUsersSent, List.map_cons, List.filterMap_cons] at ih ⊢
    exact ih

/-- One `join-room` of a connected socket that is not yet in the room: the list it is sent is
the member list as it was, and it becomes the last member. -/
theorem join_snapshot (s : Relay) (roomId : Room) (id : SocketId) (hid : id ∈ s.sockets)
    (hnew : id ∉ roomsGet s roomId) :
    allUsersSent (s.step (joinEvent roomId id)).2 = [(id, roomsGet s roomId)] ∧
    roomsGet (s.step (joinEvent roomId id)).1 roomId = roomsGet s roomId ++ [id] ∧
    (s.step (joinEvent roomId id)).1.sockets = s.sockets := by
  unfold joinEvent
  rw [step_joinRoom, if_pos hid]
  simp only [Relay.onJoinRoom]
  rw [roomsGet_socketJoin_new s id roomId hnew, socketJoin_sockets]
  refine ⟨?_, rfl, rfl⟩
  have hfil : (roomsGet s roomId ++ [id]).filter (fun c => decide (c ≠ id)) = roomsGet s roomId := by
    rw [List.filter_append]
    have h1 : (roomsGet s roomId).filter (fun c => decide (c ≠ id)) = roomsGet s roomId := by
      apply List.filter_eq_self.mpr
      intro c hc
      have : c ≠ id := fun e => hnew (e ▸ hc)
      simpa using this
    rw [h1]
    simp
  rw [hfil]
  show allUsersSent ([(id, ServerMsg.allUsers (roomsGet s roomId))] ++ _) = _
  rw [allUsersSent_append, allUsersSent_userJoined]
  rfl

theorem joins_snapshots (ids : List SocketId) (roomId : Room) :
    ∀ (s : Relay), (roomsGet s roomId ++ ids).Nodup → (∀ id ∈ ids, id ∈ s.sockets) →
      (allUsersSent (Relay.run s (ids.map (joinEvent roomId))).2).length = ids.length ∧
      ∀ (i : Nat) (h : i < ids.length),
        (allUsersSent (Relay.run s (ids.map (joinEvent roomId))).2)[i]? =
          some (ids[i], roomsGet s roomId ++ ids.take i) := by
  induction ids with
  | nil =>
    intro s _ _
    exact ⟨rfl, fun i h => absurd h (Nat.not_lt_zero i)⟩
  | cons id ids ih =>
    intro s hnd hconn
    have hnew : id ∉ roomsGet s roomId := by
      intro hmem
      have := (List.nodup_append.mp hnd).2.2
      exact this hmem (List.mem_cons_self _ _)
    obtain ⟨h1, h2, h3⟩ := join_snapshot s roomId id (hconn id (List.mem_cons_self _ _)) hnew
    have hnd2 : (roomsGet (s.step (joinEvent roomId id)).1 roomId ++ ids).Nodup := by
      rw [h2, List.append_assoc]
      exact hnd
    have hconn2 : ∀ x ∈ ids, x ∈ (s.step (joinEvent roomId id)).1.sockets := by
      intro x hx
      rw [h3]
      exact hconn x (List.mem_cons_of_mem _ hx)
    obtain ⟨ihlen, ihget⟩ := ih _ hnd2 hconn2
    simp only [List.map_cons, Relay.run, allUsersSent_append, h1]
    constructor
    · simp [ihlen]
    · intro i hi
      cases i with
      | zero => simp
      | succ j =>
        have hj : j < ids.length := by simpa using hi
        simp only [List.singleton_append, List.getElem?_cons_succ, List.getElem_cons_succ,
          List.take_succ_cons]
        rw [ihget j hj, h2]
        simp

/-! ## C1 -/

/-- C1, as stated, fails: sockets `a` and `b` are connected and each sends `join-room` once for
the room named `a`, `b` first.  The list sent to `b`, the first joiner, holds `a`, which has not
joined before it. -/
theorem first_joiner_sent_room_namesake :
    allUsersSent (Relay.run Relay.twoSockets [joinEvent "a" "b", joinEvent "a" "a"]).2 =
      [("b", ["a"]), ("a", ["b"])] := by
  decide

/-- C1, amended: when distinct connected sockets `ids` each send `join-room` once for the same
room, one at a time, and the room has no member before the first of them joins, the relay sends
one `all-users` list per joiner, and the list sent to the `i`-th joiner is the list of the
joiners before it, in join order: each of them once, and not the joiner itself. -/
theorem allUsers_lists_earlier_joiners (s : Relay) (roomId : Room) (ids : List SocketId)
    (hnd : ids.Nodup) (hconn : ∀ id ∈ ids, id ∈ s.sockets) (hempty : roomsGet s roomId = []) :
    (allUsersSent (Relay.run s (ids.map (joinEvent roomId))).2).length = ids.length ∧
    ∀ (i : Nat) (h : i < ids.length),
      (allUsersSent (Relay.run s (ids.map (joinEvent roomId))).2)[i]? =
        some (ids[i], ids.take i) ∧
      (ids.take i).Nodup ∧ ids[i] ∉ ids.take i ∧ (ids.take i).length = i := by
  have hnd2 : (roomsGet s roomId ++ ids).Nodup := by rw [hempty]; simpa using hnd
  obtain ⟨hlen, hget⟩ := joins_snapshots ids roomId s hnd2 hconn
  refine ⟨hlen, fun i h => ⟨?_, ?_, ?_, ?_⟩⟩
  · rw [hget i h, hempty]
    rfl
  · exact List.Nodup.sublist (List.take_sublist i ids) hnd
  · intro hmem
    obtain ⟨j, hj, hji⟩ := List.getElem_of_mem hmem
    rw [List.getElem_take] at hji
    have hjlt : j < i := by
      have := hj
      simp only [List.length_take] at this
      omega
    have := (List.Nodup.getElem_inj_iff hnd).mp hji
    omega
  · simp only [List.length_take]
    omega

theorem allUsers_lists_earlier_joiners_witness :
    roomsGet Relay.twoSockets "r1" = [] ∧
    (allUsersSent (Relay.run Relay.twoSockets (["a", "b"].map (joinEvent "r1"))).2)[1]? =
      some ("b", ["a"]) :=
  ⟨by decide,
   ((allUsers_lists_earlier_joiners Relay.twoSockets "r1" ["a", "b"] (by decide) (by decide)
      (by decide)).2 1 (by decide)).1⟩

/-! ## The relay's invariant (claims C2, C8) -/

theorem connectionIds_append (tr tr2 : List RelayEvent) :
    connectionIds (tr ++ tr2) = connectionIds tr ++ connectionIds tr2 := by
  simp [connectionIds, List.filterMap_append]

theorem joinSenders_append (tr tr2 : List RelayEvent) :
    joinSenders (tr ++ tr2) = joinSenders tr ++ joinSenders tr2 := by
  simp [joinSenders, List.filterMap_append]

theorem joinedRooms_append (tr tr2 : List RelayEvent) :
    joinedRooms (tr ++ tr2) = joinedRooms tr ++ joinedRooms tr2 := by
  simp [joinedRooms, List.filterMap_append]

theorem gotInAllUsers_append (l1 l2 : List Delivery) (a b : SocketId) :
    gotInAllUsers (l1 ++ l2) a b ↔ gotInAllUsers l1 a b ∨ gotInAllUsers l2 a b := by
  unfold gotInAllUsers
  constructor
  · rintro ⟨users, hmem, hb⟩
    rcases List.mem_append.mp hmem with h | h
    · exact Or.inl ⟨users, h, hb⟩
    · exact Or.inr ⟨users, h, hb⟩
  · rintro (⟨users, h, hb⟩ | ⟨users, h, hb⟩)
    · exact ⟨users, List.mem_append_left _ h, hb⟩
    · exact ⟨users, List.mem_append_right _ h, hb⟩

theorem gotUserJoined_append (l1 l2 : List Delivery) (a b : SocketId) :
    gotUserJoined (l1 ++ l2) a b ↔ gotUserJoined l1 a b ∨ gotUserJoined l2 a b := by
  unfold gotUserJoined
  exact List.mem_append

theorem quiet_gotInAllUsers (out : List Delivery) (hq : ∀ d ∈ out, d.quiet) (a b : SocketId) :
    ¬ gotInAllUsers out a b := by
  rintro ⟨users, hmem, _⟩
  exact (hq _ hmem).1 users rfl

theorem quiet_gotUserJoined (out : List Delivery) (hq : ∀ d ∈ out, d.quiet) (a b : SocketId) :
    ¬ gotUserJoined out a b := by
  intro hmem
  exact (hq _ hmem).2 b rfl

theorem linkedOneWay_quiet (log out : List Delivery) (hq : ∀ d ∈ out, d.quiet) (a b : SocketId) :
    linkedOneWay (log ++ out) a b ↔ linkedOneWay log a b := by
  unfold linkedOneWay
  simp only [gotInAllUsers_append, gotUserJoined_append, quiet_gotInAllUsers out hq,
    quiet_gotUserJoined out hq, or_false]

theorem RelayInv.extend {tr : List RelayEvent} {s : Relay} {log : List Delivery}
    (inv : RelayInv tr s log) (e : RelayEvent) : RelayInv (tr ++ [e]) s log where
  connected := inv.connected
  known := fun x hx => by
    rw [connectionIds_append]
    exact List.mem_append_left _ (inv.known x hx)
  joined := fun p hp => by
    rw [joinSenders_append, joinedRooms_append]
    rcases inv.joined p hp with h | ⟨h1, h2⟩
    · exact Or.inl h
    · exact Or.inr ⟨List.mem_append_left _ h1, List.mem_append_left _ h2⟩
  listed := fun x users h => by
    rw [joinSenders_append]
    obtain ⟨h1, h2⟩ := inv.listed x users h
    exact ⟨List.mem_append_left _ h1, fun y hy => ⟨List.mem_append_left _ (h2 y hy).1, (h2 y hy).2⟩⟩
  notified := fun x y h => by
    rw [joinSenders_append]
    obtain ⟨h1, h2⟩ := inv.notified x y h
    exact ⟨List.mem_append_left _ h1, List.mem_append_left _ h2⟩
  oneWay := inv.oneWay
  linked := inv.linked

theorem RelayInv.quietLog {tr : List RelayEvent} {s : Relay} {log : List Delivery}
    (inv : RelayInv tr s log) (out : List Delivery) (hq : ∀ d ∈ out, d.quiet) :
    RelayInv tr s (log ++ out) where
  connected := inv.connected
  known := inv.known
  joined := inv.joined
  listed := fun x users h => by
    rcases List.mem_append.mp h with h | h
    · exact inv.listed x users h
    · exact absurd rfl ((hq _ h).1 users)
  notified := fun x y h => by
    rcases List.mem_append.mp h with h | h
    · exact inv.notified x y h
    · exact absurd rfl ((hq _ h).2 y)
  oneWay := fun x y h => by
    rw [gotInAllUsers_append] at h ⊢
    rcases h with h | h
    · intro h2
      rcases h2 with h2 | h2
      · exact inv.oneWay x y h h2
      · exact quiet_gotInAllUsers out hq _ _ h2
    · exact absurd h (quiet_gotInAllUsers out hq _ _)
  linked := fun r x y hxy hx hy => by
    rw [linkedOneWay_quiet log out hq, linkedOneWay_quiet log out hq]
    exact inv.linked r x y hxy hx hy

theorem RelayInv.shrink {tr : List RelayEvent} {s s2 : Relay} {log : List Delivery}
    (inv : RelayInv tr s log) (hm : ∀ p ∈ s2.memberships, p ∈ s.memberships)
    (hs : ∀ x ∈ s2.sockets, x ∈ s.sockets) (hc : ∀ p ∈ s2.memberships, p.2 ∈ s2.sockets) :
    RelayInv tr s2 log where
  connected := hc
  known := fun x hx => inv.known x (hs x hx)
  joined := fun p hp => inv.joined p (hm p hp)
  listed := inv.listed
  notified := inv.notified
  oneWay := inv.oneWay
  linked := fun r x y hxy hx hy => inv.linked r x y hxy (hm _ hx) (hm _ hy)

theorem quiet_offer (ts : List SocketId) (id : SocketId) (sdp : Payload) :
    ∀ d ∈ ts.map (fun t => ((t, ServerMsg.offer id sdp) : Delivery)), Delivery.quiet d := by
  intro d hd
  obtain ⟨t, _, rfl⟩ := List.mem_map.mp hd
  exact ⟨fun _ h => (by cases h), fun _ h => (by cases h)⟩

theorem quiet_answer (ts : List SocketId) (id : SocketId) (sdp : Payload) :
    ∀ d ∈ ts.map (fun t => ((t, ServerMsg.answer id sdp) : Delivery)), Delivery.quiet d := by
  intro d hd
  obtain ⟨t, _, rfl⟩ := List.mem_map.mp hd
  exact ⟨fun _ h => (by cases h), fun _ h => (by cases h)⟩

theorem quiet_iceCandidate (ts : List SocketId) (id : SocketId) (c : Option Payload) :
    ∀ d ∈ ts.map (fun t => ((t, ServerMsg.iceCandidate id c) : Delivery)), Delivery.quiet d := by
  intro d hd
  obtain ⟨t, _, rfl⟩ := List.mem_map.mp hd
  exact ⟨fun _ h => (by cases h), fun _ h => (by cases h)⟩

theorem quiet_onDisconnecting (s : Relay) (id : SocketId) :
    ∀ d ∈ s.onDisconnecting id, d.quiet := by
  intro d hd
  obtain ⟨r, _, hd2⟩ := List.mem_flatMap.mp hd
  obtain ⟨t, _, rfl⟩ := List.mem_map.mp hd2
  exact ⟨fun _ h => (by cases h), fun _ h => (by cases h)⟩

theorem gotInAllUsers_join (id : SocketId) (others ts : List SocketId) (a b : SocketId) :
    gotInAllUsers ((id, ServerMsg.allUsers others)
        :: ts.map (fun t => ((t, ServerMsg.userJoined id) : Delivery))) a b ↔
      a = id ∧ b ∈ others := by
  unfold gotInAllUsers
  constructor
  · rintro ⟨users, hmem, hb⟩
    rcases List.mem_cons.mp hmem with h | h
    · cases h
      exact ⟨rfl, hb⟩
    · obtain ⟨t, _, ht⟩ := List.mem_map.mp h
      cases ht
  · rintro ⟨rfl, hb⟩
    exact ⟨others, List.mem_cons_self _ _, hb⟩

theorem gotUserJoined_join (id : SocketId) (others ts : List SocketId) (a b : SocketId) :
    gotUserJoined ((id, ServerMsg.allUsers others)
        :: ts.map (fun t => ((t, ServerMsg.userJoined id) : Delivery))) a b ↔
      b = id ∧ a ∈ ts := by
  unfold gotUserJoined
  constructor
  · intro hmem
    rcases List.mem_cons.mp hmem with h | h
    · cases h
    · obtain ⟨t, ht, heq⟩ := List.mem_map.mp h
      cases heq
      exact ⟨rfl, ht⟩
  · rintro ⟨rfl, ha⟩
    exact List.mem_cons_of_mem _ (List.mem_map.mpr ⟨a, ha, rfl⟩)

theorem RelayInv.namesake {tr : List RelayEvent} {s : Relay} {log : List Delivery}
    (inv : RelayInv tr s log) (hroom : ∀ r ∈ joinedRooms tr, r ∉ connectionIds tr)
    (p : Room × SocketId) (hp : p ∈ s.memberships) (h : p.1 ∈ connectionIds tr) : p.1 = p.2 := by
  rcases inv.joined p hp with h1 | ⟨_, h2⟩
  · exact h1
  · exact absurd h (hroom _ h2)

theorem RelayInv.connection {tr : List RelayEvent} {s : Relay} {log : List Delivery}
    (inv : RelayInv tr s log) (id : SocketId)
    (hroom : ∀ r ∈ joinedRooms (tr ++ [RelayEvent.connection id]),
      r ∉ connectionIds (tr ++ [RelayEvent.connection id])) :
    RelayInv (tr ++ [RelayEvent.connection id]) (s.step (RelayEvent.connection id)).1
      (log ++ (s.step (RelayEvent.connection id)).2) := by
  have base := inv.extend (RelayEvent.connection id)
  rw [step_connection]
  split
  · simpa using base
  · simp only [List.append_nil]
    have hidc : id ∈ connectionIds (tr ++ [RelayEvent.connection id]) := by
      rw [connectionIds_append]
      exact List.mem_append_right _ (by simp [connectionIds])
    have hmem : ∀ p, p ∈ (socketJoin { s with sockets := s.sockets ++ [id] } id id).memberships ↔
        p ∈ s.memberships ∨ p = (id, id) := fun p => mem_socketJoin
    exact {
      connected := fun p hp => by
        rw [socketJoin_sockets]
        rcases (hmem p).mp hp with hp | hp
        · exact List.mem_append_left _ (base.connected p hp)
        · subst hp
          simp
      known := fun x hx => by
        rw [socketJoin_sockets] at hx
        rcases List.mem_append.mp hx with hx | hx
        · exact base.known x hx
        · simp only [List.mem_singleton] at hx
          exact hx ▸ hidc
      joined := fun p hp => by
        rcases (hmem p).mp hp with hp | hp
        · exact base.joined p hp
        · subst hp
          exact Or.inl rfl
      listed := base.listed
      notified := base.notified
      oneWay := base.oneWay
      linked := fun r x y hxy hx hy => by
        rcases (hmem _).mp hx with hx | hx <;> rcases (hmem _).mp hy with hy | hy
        · exact base.linked r x y hxy hx hy
        · cases hy
          have := base.namesake hroom _ hx hidc
          exact absurd this.symm hxy
        · cases hx
          have := base.namesake hroom _ hy hidc
          exact absurd this hxy
        · cases hx
          cases hy
          exact absurd rfl hxy }

theorem RelayInv.joinRoom {tr : List RelayEvent} {s : Relay} {log : List Delivery}
    (inv : RelayInv tr s log) (id : SocketId) (roomId : Room) (hid : id ∈ s.sockets)
    (hjoin : (joinSenders (tr ++ [RelayEvent.message id (ClientMsg.joinRoom roomId)])).Nodup)
    (hroom : ∀ r ∈ joinedRooms (tr ++ [RelayEvent.message id (ClientMsg.joinRoom roomId)]),
      r ∉ connectionIds (tr ++ [RelayEvent.message id (ClientMsg.joinRoom roomId)])) :
    RelayInv (tr ++ [RelayEvent.message id (ClientMsg.joinRoom roomId)])
      (s.onJoinRoom id roomId).1 (log ++ (s.onJoinRoom id roomId).2) := by
  have base := inv.extend (RelayEvent.message id (ClientMsg.joinRoom roomId))
  generalize htr : tr ++ [RelayEvent.message id (ClientMsg.joinRoom roomId)] = tr2 at *
  have hsnd : joinSenders tr2 = joinSenders tr ++ [id] := by
    rw [← htr, joinSenders_append]
    rfl
  have hrms : roomId ∈ joinedRooms tr2 := by
    rw [← htr, joinedRooms_append]
    exact List.mem_append_right _ (by simp [joinedRooms])
  have hidJ : id ∈ joinSenders tr2 := by
    rw [hsnd]
    simp
  have hidNew : id ∉ joinSenders tr := by
    rw [hsnd] at hjoin
    intro h
    exact (List.nodup_append.mp hjoin).2.2 h (by simp)
  have hidC : id ∈ connectionIds tr2 := base.known id hid
  have hrid : roomId ≠ id := by
    rintro rfl
    exact hroom _ hrms hidC
  -- rooms of `id` and members of the room named `id` before the join
  have hidPairs : ∀ r, (r, id) ∈ s.memberships → r = id := by
    intro r hr
    rcases inv.joined _ hr with h | ⟨h, _⟩
    · exact h
    · exact absurd h hidNew
  have hidRoom : ∀ y, (id, y) ∈ s.memberships → y = id := by
    intro y hy
    exact (base.namesake hroom _ hy hidC).symm
  have hrMembers : ∀ y, (roomId, y) ∈ s.memberships → y ∈ joinSenders tr ∧ y ≠ id := by
    intro y hy
    rcases inv.joined _ hy with h | ⟨h, _⟩
    · simp only at h
      have hyC : y ∈ connectionIds tr2 := base.known y (inv.connected _ hy)
      exact absurd (h ▸ hyC) (hroom _ hrms)
    · exact ⟨h, fun e => hidNew (e ▸ h)⟩
  have hmem : ∀ p, p ∈ (socketJoin s id roomId).memberships ↔
      p ∈ s.memberships ∨ p = (roomId, id) := fun p => mem_socketJoin
  -- the two parts of the emitted packets
  have hothers : ∀ y, y ∈ (roomsGet (socketJoin s id roomId) roomId).filter (fun c => decide (c ≠ id)) ↔
      (roomId, y) ∈ s.memberships := by
    intro y
    simp only [List.mem_filter, mem_roomsGet, hmem, decide_eq_true_eq]
    constructor
    · rintro ⟨h | h, hne⟩
      · exact h
      · cases h
        exact absurd rfl hne
    · intro h
      exact ⟨Or.inl h, (hrMembers y h).2⟩
  have hbc : ∀ y, (roomId, y) ∈ s.memberships →
      y ∈ broadcast (socketJoin s id roomId) roomId [id] := by
    intro y hy
    refine mem_broadcast.mpr ⟨(hmem _).mpr (Or.inl hy), ?_, ?_⟩
    · intro e he hmemb
      simp only [List.mem_singleton] at he
      subst he
      rcases (hmem _).mp hmemb with h | h
      · exact (hrMembers y hy).2 (hidRoom y h)
      · cases h
        exact hrid rfl
    · rw [socketJoin_sockets]
      exact inv.connected _ hy
  have hbcJ : ∀ t, t ∈ broadcast (socketJoin s id roomId) roomId [id] → t ∈ joinSenders tr2 := by
    intro t ht
    rcases (hmem _).mp (mem_broadcast.mp ht).1 with h | h
    · rw [hsnd]
      exact List.mem_append_left _ (hrMembers t h).1
    · cases h
      exact hidJ
  have hnoList : ∀ x, ¬ gotInAllUsers log x id := by
    rintro x ⟨users, hm, hu⟩
    exact hidNew ((inv.listed x users hm).2 id hu).1
  have hnoList2 : ∀ y, ¬ gotInAllUsers log id y := by
    rintro y ⟨users, hm, _⟩
    exact hidNew (inv.listed id users hm).1
  have hnoNote : ∀ y, ¬ gotUserJoined log id y := by
    intro y hm
    exact hidNew (inv.notified id y hm).1
  simp only [Relay.onJoinRoom]
  exact {
    connected := fun p hp => by
      rw [socketJoin_sockets]
      rcases (hmem p).mp hp with hp | hp
      · exact inv.connected p hp
      · subst hp
        exact hid
    known := fun x hx => by
      rw [socketJoin_sockets] at hx
      exact base.known x hx
    joined := fun p hp => by
      rcases (hmem p).mp hp with hp | hp
      · exact base.joined p hp
      · subst hp
        exact Or.inr ⟨hidJ, hrms⟩
    listed := fun x users h => by
      rcases List.mem_append.mp h with h | h
      · exact base.listed x users h
      · rcases List.mem_cons.mp h with h | h
        · cases h
          refine ⟨hidJ, fun y hy => ?_⟩
          have := hrMembers y ((hothers y).mp hy)
          rw [hsnd]
          exact ⟨List.mem_append_left _ this.1, this.2⟩
        · obtain ⟨t, _, ht⟩ := List.mem_map.mp h
          cases ht
    notified := fun x y h => by
      rcases List.mem_append.mp h with h | h
      · exact base.notified x y h
      · rcases List.mem_cons.mp h with h | h
        · cases h
        · obtain ⟨t, ht, heq⟩ := List.mem_map.mp h
          cases heq
          exact ⟨hbcJ _ ht, hidJ⟩
    oneWay := fun x y h h2 => by
      rw [gotInAllUsers_append, gotInAllUsers_join] at h h2
      rcases h with h | ⟨rfl, hy⟩
      · rcases h2 with h2 | ⟨rfl, _⟩
        · exact inv.oneWay x y h h2
        · exact hnoList x h
      · rcases h2 with h2 | ⟨rfl, _⟩
        · exact hnoList y h2
        · exact (hrMembers _ ((hothers _).mp hy)).2 rfl
    linked := fun r x y hxy hx hy => by
      have hnew : ∀ y, (roomId, y) ∈ s.memberships →
          linkedOneWay (log ++ (id, ServerMsg.allUsers
            ((roomsGet (socketJoin s id roomId) roomId).filter (fun c => decide (c ≠ id))))
            :: (broadcast (socketJoin s id roomId) roomId [id]).map
              (fun t => ((t, ServerMsg.userJoined id) : Delivery))) id y := by
        intro y hy
        have hyne := (hrMembers y hy).2
        unfold linkedOneWay
        simp only [gotInAllUsers_append, gotUserJoined_append, gotInAllUsers_join,
          gotUserJoined_join]
        refine ⟨Or.inr ⟨trivial, (hothers y).mpr hy⟩, Or.inr ⟨trivial, hbc y hy⟩, ?_, ?_⟩
        · rintro (h | ⟨h, _⟩)
          · exact hnoList y h
          · exact hyne h
        · rintro (h | ⟨h, _⟩)
          · exact hnoNote y h
          · exact hyne h
      rcases (hmem _).mp hx with hx1 | hx1 <;> rcases (hmem _).mp hy with hy1 | hy1
      · have hxne : x ≠ id := by
          rintro rfl
          have := hidPairs r hx1
          subst this
          exact hxy (hidRoom y hy1).symm
        have hyne : y ≠ id := by
          rintro rfl
          have := hidPairs r hy1
          subst this
          exact hxy (hidRoom x hx1)
        have key : ∀ a b, a ≠ id → b ≠ id →
            (linkedOneWay (log ++ (id, ServerMsg.allUsers
              ((roomsGet (socketJoin s id roomId) roomId).filter (fun c => decide (c ≠ id))))
              :: (broadcast (socketJoin s id roomId) roomId [id]).map
                (fun t => ((t, ServerMsg.userJoined id) : Delivery))) a b ↔
              linkedOneWay log a b) := by
          intro a b ha hb
          unfold linkedOneWay
          simp only [gotInAllUsers_append, gotUserJoined_append, gotInAllUsers_join,
            gotUserJoined_join, ha, hb, false_and, or_false]
        rw [key x y hxne hyne, key y x hyne hxne]
        exact inv.linked r x y hxy hx1 hy1
      · cases hy1
        exact Or.inr (hnew x hx1)
      · cases hx1
        exact Or.inl (hnew y hy1)
      · cases hx1
        cases hy1
        exact absurd rfl hxy }

theorem RelayInv.step {tr : List RelayEvent} {s : Relay} {log : List Delivery}
    (inv : RelayInv tr s log) (e : RelayEvent) (hjoin : (joinSenders (tr ++ [e])).Nodup)
    (hroom : ∀ r ∈ joinedRooms (tr ++ [e]), r ∉ connectionIds (tr ++ [e])) :
    RelayInv (tr ++ [e]) (s.step e).1 (log ++ (s.step e).2) := by
  cases e with
  | connection id => exact inv.connection id hroom
  | message id m =>
    cases m with
    | joinRoom roomId =>
      rw [step_joinRoom]
      split
      · rename_i hid
        exact inv.joinRoom id roomId hid hjoin hroom
      · simpa using inv.extend _
    | offer toId sdp =>
      rw [step_offer]
      split
      · exact (inv.extend _).quietLog _ (quiet_offer _ id sdp)
      · simpa using inv.extend _
    | answer toId sdp =>
      rw [step_answer]
      split
      · exact (inv.extend _).quietLog _ (quiet_answer _ id sdp)
      · simpa using inv.extend _
    | iceCandidate toId candidate =>
      rw [step_iceCandidate]
      split
      · exact (inv.extend _).quietLog _ (quiet_iceCandidate _ id candidate)
      · simpa using inv.extend _
  | disconnect id =>
    rw [step_disconnect]
    split
    · refine RelayInv.quietLog ?_ _ (quiet_onDisconnecting s id)
      refine (inv.extend _).shrink ?_ ?_ ?_
      · intro p hp
        exact (List.mem_filter.mp hp).1
      · intro x hx
        exact (List.mem_filter.mp hx).1
      · intro p hp
        simp only [socketLeaveAll, List.mem_filter, decide_eq_true_eq] at hp ⊢
        exact ⟨inv.connected p hp.1, by simpa using hp.2⟩
    · simpa using inv.extend _

theorem relayInv_init : RelayInv [] Relay.init [] where
  connected := fun _ h => by cases h
  known := fun _ h => by cases h
  joined := fun _ h => by cases h
  listed := fun _ _ h => by cases h
  notified := fun _ _ h => by cases h
  oneWay := fun _ _ h => by
    obtain ⟨_, h, _⟩ := h
    cases h
  linked := fun _ _ _ _ h => by cases h

theorem relayInv_run (tr : List RelayEvent) (hjoin : (joinSenders tr).Nodup)
    (hroom : ∀ r ∈ joinedRooms tr, r ∉ connectionIds tr) :
    RelayInv tr (Relay.run Relay.init tr).1 (Relay.run Relay.init tr).2 := by
  induction tr using List.reverseRecOn with
  | nil => exact relayInv_init
  | append_singleton tr e ih =>
    rw [run_snoc]
    have hjoin2 : (joinSenders tr).Nodup := by
      rw [joinSenders_append] at hjoin
      exact (List.nodup_append.mp hjoin).1
    have hroom2 : ∀ r ∈ joinedRooms tr, r ∉ connectionIds tr := by
      intro r hr hc
      refine hroom r ?_ ?_
      · rw [joinedRooms_append]
        exact List.mem_append_left _ hr
      · rw [connectionIds_append]
        exact List.mem_append_left _ hc
    exact (ih hjoin2 hroom2).step e hjoin hroom

/-! ## C2 -/

/-- C2, as stated, fails.  First trace: `a` and `b` join room `r1` and `a` sends `join-room` for
`r1` a second time.  Second trace: each socket sends `join-room` once, `b` and then `a`, for
the room named `a`.  Either way `a` and `b` end up in one room and each of them was sent the
other in an `all-users` list, so they are linked neither one way nor the other. -/
theorem rejoin_links_both_ways :
    ("a" ∈ roomsGet (Relay.run Relay.twoSockets
        [joinEvent "r1" "a", joinEvent "r1" "b", joinEvent "r1" "a"]).1 "r1" ∧
     "b" ∈ roomsGet (Relay.run Relay.twoSockets
        [joinEvent "r1" "a", joinEvent "r1" "b", joinEvent "r1" "a"]).1 "r1" ∧
     ¬ (linkedOneWay (Relay.run Relay.twoSockets
          [joinEvent "r1" "a", joinEvent "r1" "b", joinEvent "r1" "a"]).2 "a" "b" ∨
        linkedOneWay (Relay.run Relay.twoSockets
          [joinEvent "r1" "a", joinEvent "r1" "b", joinEvent "r1" "a"]).2 "b" "a")) ∧
    ("a" ∈ roomsGet (Relay.run Relay.twoSockets [joinEvent "a" "b", joinEvent "a" "a"]).1 "a" ∧
     "b" ∈ roomsGet (Relay.run Relay.twoSockets [joinEvent "a" "b", joinEvent "a" "a"]).1 "a" ∧
     ¬ (linkedOneWay (Relay.run Relay.twoSockets [joinEvent "a" "b", joinEvent "a" "a"]).2 "a" "b" ∨
        linkedOneWay (Relay.run Relay.twoSockets
          [joinEvent "a" "b", joinEvent "a" "a"]).2 "b" "a")) := by
  have hab : gotInAllUsers (Relay.run Relay.twoSockets
      [joinEvent "r1" "a", joinEvent "r1" "b", joinEvent "r1" "a"]).2 "a" "b" :=
    ⟨["b"], by decide, by decide⟩
  have hba : gotInAllUsers (Relay.run Relay.twoSockets
      [joinEvent "r1" "a", joinEvent "r1" "b", joinEvent "r1" "a"]).2 "b" "a" :=
    ⟨["a"], by decide, by decide⟩
  have hab2 : gotInAllUsers (Relay.run Relay.twoSockets
      [joinEvent "a" "b", joinEvent "a" "a"]).2 "a" "b" :=
    ⟨["b"], by decide, by decide⟩
  have hba2 : gotInAllUsers (Relay.run Relay.twoSockets
      [joinEvent "a" "b", joinEvent "a" "a"]).2 "b" "a" :=
    ⟨["a"], by decide, by decide⟩
  refine ⟨⟨by decide, by decide, ?_⟩, ⟨by decide, by decide, ?_⟩⟩
  · rintro (h | h)
    · exact h.2.2.1 hba
    · exact h.2.2.1 hab
  · rintro (h | h)
    · exact h.2.2.1 hba2
    · exact h.2.2.1 hab2

/-- C2, amended: for every sequence of connections, messages and disconnects in which every
socket sends `join-room` at most once and no `join-room` names a room that is the id of a socket
of the sequence, any two distinct sockets that end up in one room are linked one way: one of
them was sent the other in an `all-users` list and the other was sent `user-joined` for the
first, and not the other way round. -/
theorem room_mates_linked_one_way (tr : List RelayEvent) (hjoin : (joinSenders tr).Nodup)
    (hroom : ∀ r ∈ joinedRooms tr, r ∉ connectionIds tr) (a b : SocketId) (r : Room)
    (hab : a ≠ b) (ha : a ∈ roomsGet (Relay.run Relay.init tr).1 r)
    (hb : b ∈ roomsGet (Relay.run Relay.init tr).1 r) :
    linkedOneWay (Relay.run Relay.init tr).2 a b ∨ linkedOneWay (Relay.run Relay.init tr).2 b a :=
  (relayInv_run tr hjoin hroom).linked r a b hab (mem_roomsGet.mp ha) (mem_roomsGet.mp hb)

theorem room_mates_linked_one_way_witness :
    "a" ∈ roomsGet (Relay.run Relay.init [RelayEvent.connection "a", RelayEvent.connection "b",
        RelayEvent.connection "c", joinEvent "r1" "a", joinEvent "r1" "b", joinEvent "r1" "c",
        RelayEvent.disconnect "c"]).1 "r1" ∧
    (linkedOneWay (Relay.run Relay.init [RelayEvent.connection "a", RelayEvent.connection "b",
        RelayEvent.connection "c", joinEvent "r1" "a", joinEvent "r1" "b", joinEvent "r1" "c",
        RelayEvent.disconnect "c"]).2 "a" "b" ∨
     linkedOneWay (Relay.run Relay.init [RelayEvent.connection "a", RelayEvent.connection "b",
        RelayEvent.connection "c", joinEvent "r1" "a", joinEvent "r1" "b", joinEvent "r1" "c",
        RelayEvent.disconnect "c"]).2 "b" "a") :=
  ⟨by decide,
   room_mates_linked_one_way [RelayEvent.connection "a", RelayEvent.connection "b",
      RelayEvent.connection "c", joinEvent "r1" "a", joinEvent "r1" "b", joinEvent "r1" "c",
      RelayEvent.disconnect "c"] (by decide) (by decide) "a" "b" "r1" (by decide) (by decide)
      (by decide)⟩

/-! ## Offers and roles (claim C8) -/

theorem createPeerConnectionAndOffer_sends (c : Client) (x : SocketId) (o : OfferOutcome)
    (m : ClientMsg) (h : m ∈ (c.createPeerConnectionAndOffer x o).2) :
    ∃ sdp, m = ClientMsg.offer x sdp := by
  unfold Client.createPeerConnectionAndOffer at h
  split at h
  · cases h
  · cases o with
    | createOfferRejected => cases h
    | setLocalDescriptionRejected => cases h
    | ok sdp =>
      simp only [List.mem_singleton] at h
      exact ⟨sdp, h⟩

theorem onAllUsers_sends (outcome : SocketId → OfferOutcome) (users : List SocketId) :
    ∀ (c : Client) (m : ClientMsg), m ∈ (c.onAllUsers outcome users).2 →
      ∃ x sdp, x ∈ users ∧ m = ClientMsg.offer x sdp := by
  induction users with
  | nil =>
    intro c m h
    cases h
  | cons u users ih =>
    intro c m h
    simp only [Client.onAllUsers, List.mem_append] at h
    rcases h with h | h
    · obtain ⟨sdp, hm⟩ := createPeerConnectionAndOffer_sends c u _ m h
      exact ⟨u, sdp, List.mem_cons_self _ _, hm⟩
    · obtain ⟨x, sdp, hx, hm⟩ := ih _ m h
      exact ⟨x, sdp, List.mem_cons_of_mem _ hx, hm⟩

theorem step_offer_from_allUsers (c : Client) (e : ClientEvent) (x : SocketId) (sdp : Payload)
    (h : ClientMsg.offer x sdp ∈ (c.step e).2) :
    ∃ users t, e = ClientEvent.recv (ServerMsg.allUsers users) t ∧ x ∈ users := by
  cases e with
  | recv m t =>
    cases m with
    | allUsers users =>
      obtain ⟨y, sdp2, hy, hm⟩ := onAllUsers_sends t.offers users c _ h
      cases hm
      exact ⟨users, t, rfl, hy⟩
    | userJoined remoteId => cases h
    | offer sender sdp2 =>
      simp only [Client.step, Client.recv, Client.handleReceivedOffer] at h
      cases ho : t.answer <;> simp [ho] at h
    | answer sender sdp2 =>
      simp only [Client.step, Client.recv, Client.onAnswer] at h
      split at h <;> cases h
    | iceCandidate sender candidate =>
      simp only [Client.step, Client.recv, Client.onIceCandidate] at h
      split at h <;> cases h
    | userLeft id =>
      simp only [Client.step, Client.recv, Client.onUserLeft] at h
      split at h <;> cases h
  | track i stream =>
    simp only [Client.step, Client.onTrack] at h
    split at h
    · split at h <;> cases h
    · cases h
  | localCandidate i candidate =>
    simp only [Client.step, Client.onLocalCandidate] at h
    split at h
    · split at h
      · cases h
      · simp at h
    · cases h

theorem run_offer_from_allUsers (evs : List ClientEvent) :
    ∀ (c : Client) (x : SocketId) (sdp : Payload), ClientMsg.offer x sdp ∈ (c.run evs).2 →
      ∃ users, ServerMsg.allUsers users ∈ received evs ∧ x ∈ users := by
  induction evs with
  | nil =>
    intro c x sdp h
    cases h
  | cons e evs ih =>
    intro c x sdp h
    simp only [Client.run, List.mem_append] at h
    rcases h with h | h
    · obtain ⟨users, t, rfl, hx⟩ := step_offer_from_allUsers c e x sdp h
      exact ⟨users, by simp [received], hx⟩
    · obtain ⟨users, hu, hx⟩ := ih _ x sdp h
      refine ⟨users, ?_, hx⟩
      unfold received at hu ⊢
      rw [List.filterMap_cons]
      split
      · exact hu
      · exact List.mem_cons_of_mem _ hu

/-- The role rule at work: over any run of the relay in which every socket sends `join-room` at
most once and no `join-room` names a room that is the id of a socket of the run, two clients
that handle messages the relay sent them do not both emit an offer to the other.  In any run, a
client emits an offer to `x` only while handling an `all-users` list that holds `x`, and
handling `user-joined` changes nothing and sends nothing. -/
theorem single_joins_no_mutual_offers (tr : List RelayEvent) (hjoin : (joinSenders tr).Nodup)
    (hroom : ∀ r ∈ joinedRooms tr, r ∉ connectionIds tr) (a b : SocketId) (ca cb : Client)
    (evsA evsB : List ClientEvent)
    (hA : ∀ m ∈ received evsA, (a, m) ∈ (Relay.run Relay.init tr).2)
    (hB : ∀ m ∈ received evsB, (b, m) ∈ (Relay.run Relay.init tr).2) :
    ¬ ((∃ sdp, ClientMsg.offer b sdp ∈ (ca.run evsA).2) ∧
       (∃ sdp, ClientMsg.offer a sdp ∈ (cb.run evsB).2)) ∧
    (∀ (c : Client) (e : ClientEvent) (x : SocketId) (sdp : Payload),
      ClientMsg.offer x sdp ∈ (c.step e).2 →
        ∃ users t, e = ClientEvent.recv (ServerMsg.allUsers users) t ∧ x ∈ users) ∧
    (∀ (c : Client) (t : Transport) (x : SocketId),
      c.step (ClientEvent.recv (ServerMsg.userJoined x) t) = (c, [])) := by
  refine ⟨?_, step_offer_from_allUsers, fun _ _ _ => rfl⟩
  rintro ⟨⟨sdpA, hoA⟩, ⟨sdpB, hoB⟩⟩
  obtain ⟨usersA, huA, hbin⟩ := run_offer_from_allUsers evsA ca b sdpA hoA
  obtain ⟨usersB, huB, hain⟩ := run_offer_from_allUsers evsB cb a sdpB hoB
  exact (relayInv_run tr hjoin hroom).oneWay a b ⟨usersA, hA _ huA, hbin⟩
    ⟨usersB, hB _ huB, hain⟩

/-- C8: two users each change room while the camera prompt is open (`r1` to `r2` on sockets
`a1`, `a2`; `r2` to `r1` on sockets `b1`, `b2`).  Every suspended `setupLocal` emits `join-room`
on the socket `socketRef.current` holds when its `getUserMedia` settles, so `a2` and `b2` each
send `join-room` twice, once per room.  The relay sends `a2` an `all-users` list holding `b2`
and sends `b2` one holding `a2`; each client, handling the messages the relay sent it in
order, emits an offer to the other (offers are emitted only while a list is handled, so they
reach the relay after the four joins). -/
theorem stale_socketRef_both_sides_offer :
    Browser.trace [] Browser.roomChangesWhilePrompted =
      [RelayEvent.connection "a1", RelayEvent.disconnect "a1", RelayEvent.connection "a2",
       RelayEvent.connection "b1", RelayEvent.disconnect "b1", RelayEvent.connection "b2",
       joinEvent "r1" "a2", joinEvent "r2" "b2", joinEvent "r2" "a2", joinEvent "r1" "b2"] ∧
    inbox (Relay.run Relay.init (Browser.trace [] Browser.roomChangesWhilePrompted)).2 "a2" =
      [ServerMsg.allUsers [], ServerMsg.allUsers ["b2"], ServerMsg.userJoined "b2"] ∧
    inbox (Relay.run Relay.init (Browser.trace [] Browser.roomChangesWhilePrompted)).2 "b2" =
      [ServerMsg.allUsers [], ServerMsg.userJoined "a2", ServerMsg.allUsers ["a2"]] ∧
    ((Client.init (some "cam-a")).handleAll Transport.resolving
      (inbox (Relay.run Relay.init (Browser.trace [] Browser.roomChangesWhilePrompted)).2
        "a2")).2 = [ClientMsg.offer "b2" "offer-sdp"] ∧
    ((Client.init (some "cam-b")).handleAll Transport.resolving
      (inbox (Relay.run Relay.init (Browser.trace [] Browser.roomChangesWhilePrompted)).2
        "b2")).2 = [ClientMsg.offer "a2" "offer-sdp"] := by
  decide

end VideoCallWebRtc
